import Mathlib

/-!
# Verification of the TileDB read path (`tiledb/sm/query/reader.cc`)

Shallow embedding of the `Reader` class of the legacy TileDB read path and
proofs about it.  Each C++ routine that a claim depends on is translated to a
Lean definition keeping the source's control flow; machine integers are
modelled as `Nat`/`Int` (no overflow is relevant to the translated
arithmetic: all sizes are additions and multiplications of small
quantities), fallible routines return a `Status` value, and the very few
collaborator routines that are declared but not defined in the source under
study (`DenseCellRangeCmp`, `Domain::split_subarray`,
`array_compute_est_read_buffer_sizes`) are modelled from the spec, as
documented at their definitions.
-/

namespace TileDB

/-- C++ `Status`: either OK or an error carrying a message
(`Status::ReaderError(...)`, `Status::WriterError(...)` and the like). -/
inductive Status where
  | ok : Status
  | error : String → Status
deriving DecidableEq, Repr

/-- `Status::ok()`. -/
def Status.isOk : Status → Bool
  | .ok => true
  | .error _ => false

/-- The `Layout` enum of the storage engine. -/
inductive Layout where
  | row_major
  | col_major
  | global_order
  | unordered
deriving DecidableEq, Repr

/-- The `Datatype` enum (the domain types that `dense_read` / `read_2`
dispatch on). -/
inductive Datatype where
  | int8 | uint8 | int16 | uint16 | int32 | uint32 | int64 | uint64
  | float32 | float64 | other
deriving DecidableEq, Repr

/-! ## `Reader::incomplete` (claim C7)

The reader carries two read states; `read_state_2_.set_` selects the new
(Subarray-based) one.  `incomplete()` reads
`read_state_2_.overflowed_ || !read_state_2_.done()` on the new path and
`read_state_.overflowed_ || cur_subarray_partition_ != nullptr` on the
legacy path (reader.cc:121-131). -/

/-- The fields of `Reader::ReadState` / `ReadState2` that `incomplete`
consults.  `curSubarrayPartition` is `none` exactly when the C++ pointer
`cur_subarray_partition_` is `nullptr`; `done2` is the value of
`read_state_2_.done()`. -/
structure IncompleteState where
  set2 : Bool
  overflowed : Bool
  overflowed2 : Bool
  curSubarrayPartition : Option Nat
  done2 : Bool
deriving DecidableEq, Repr

/-- `Reader::incomplete` (reader.cc:121-131), translated branch by branch. -/
def incomplete (s : IncompleteState) : Bool :=
  if s.set2 then
    s.overflowed2 || !s.done2
  else
    s.overflowed || decide (s.curSubarrayPartition ≠ none)

/-! ## `Reader::optimize_layout_for_1D` and `Reader::init` (claim C9) -/

/-- The slice of `Reader` state that `init` manipulates on the legacy path.
`storageManagerSet`/`schemaSet`/`buffersNonempty`/`attributesNonempty`
stand for the nullness/emptiness tests of the sanity checks;
`configOk` stands for successful parsing of the two memory-budget
configuration values; `dimNum` is `array_schema_->dim_num()`. -/
structure InitState where
  storageManagerSet : Bool
  schemaSet : Bool
  buffersNonempty : Bool
  attributesNonempty : Bool
  configOk : Bool
  set2 : Bool
  dimNum : Nat
  layout : Layout
deriving DecidableEq, Repr

/-- `Reader::optimize_layout_for_1D` (reader.cc:2281-2284): on 1-D arrays the
layout is overwritten with `GLOBAL_ORDER` unconditionally. -/
def optimize_layout_for_1D (s : InitState) : InitState :=
  if s.dimNum = 1 then { s with layout := .global_order } else s

/-- `Reader::init` (reader.cc:169-208) restricted to the state it returns and
the layout field.  The fragment-metadata-dependent calls
(`init_read_state`, `init_read_state_2`) do not touch `layout_` and are
not modelled; `set_subarray(nullptr)` likewise. -/
def init (s : InitState) : Status × InitState :=
  if !s.storageManagerSet then
    (.error "Cannot initialize reader; Storage manager not set", s)
  else if !s.schemaSet then
    (.error "Cannot initialize reader; Array metadata not set", s)
  else if !s.buffersNonempty then
    (.error "Cannot initialize reader; Buffers not set", s)
  else if !s.attributesNonempty then
    (.error "Cannot initialize reader; Attributes not set", s)
  else if !s.configOk then
    (.error "Config parse error", s)
  else if s.set2 then
    (.ok, s)
  else
    (.ok, optimize_layout_for_1D s)

/-- The comparator that `Reader::sort_coords` selects for a layout
(reader.cc:2469-2487): `GlobalCmp` for `GLOBAL_ORDER`, `RowCmp` for
`ROW_MAJOR`, `ColCmp` for `COL_MAJOR` (no sort otherwise). -/
inductive SortComparator where
  | globalCmp
  | rowCmp
  | colCmp
  | noSort
deriving DecidableEq, Repr

/-- The comparator choice made by `Reader::sort_coords` on the legacy path. -/
def sort_coords_comparator (layout : Layout) : SortComparator :=
  match layout with
  | .global_order => .globalCmp
  | .row_major => .rowCmp
  | .col_major => .colCmp
  | .unordered => .noSort

/-! ## `Reader::dense_read` dispatch and `dense_read_2` on real domains
(claim C8) -/

/-- Result of running a C++ routine that may trip an `assert`: in a release
build the assertion is a no-op and the routine returns its status; the
`assertionFailed` flag records whether `assert(false)` was reached
(in a debug build the process would abort there). -/
structure AssertStatus where
  assertionFailed : Bool
  status : Status
deriving DecidableEq, Repr

/-- The type dispatch of the non-template `Reader::dense_read`
(reader.cc:1580-1605).  The eight integer cases recurse into the
template; `FLOAT32`, `FLOAT64` and everything else fall into the
`default:` branch, which returns an error without reading anything.
`.ok` abstracts the templated integer reads (out of scope here). -/
def dense_read_dispatch (coordsType : Datatype) : Status :=
  match coordsType with
  | .int8 | .uint8 | .int16 | .uint16
  | .int32 | .uint32 | .int64 | .uint64 => .ok
  | _ => .error "Cannot read; Unsupported domain type"

/-- The explicit specialization `Reader::dense_read_2<float>`
(reader.cc:1702-1707): `assert(false); return Status::Ok();`. -/
def dense_read_2_float : AssertStatus :=
  { assertionFailed := true, status := .ok }

/-- The explicit specialization `Reader::dense_read_2<double>`
(reader.cc:1709-1714): `assert(false); return Status::Ok();`. -/
def dense_read_2_double : AssertStatus :=
  { assertionFailed := true, status := .ok }

/-- The type dispatch of the non-template `Reader::read_2`
(reader.cc:402-431) composed with the dense branch of `read_2<T>`
(reader.cc:453-454): on a dense array, `FLOAT32` and `FLOAT64` reach the
`assert(false)` specializations, whose `Status` is moreover discarded by
the caller; integer types run the templated dense read (abstracted as
ok). -/
def read_2_dense_dispatch (coordsType : Datatype) : AssertStatus :=
  match coordsType with
  | .int8 | .uint8 | .int16 | .uint16
  | .int32 | .uint32 | .int64 | .uint64 => { assertionFailed := false, status := .ok }
  | .float32 => dense_read_2_float
  | .float64 => dense_read_2_double
  | .other => { assertionFailed := false,
                status := .error "Cannot read; Unsupported domain type" }

/-! ## `Reader::compute_dense_cell_ranges` (claim C1)

The priority-queue merge of per-fragment dense cell ranges
(reader.cc:734-874), in the `same_layout` case where ranges carry plain
global positions and no cell coordinates.  The per-fragment
`DenseCellRangeIter<T>` iterators are modelled as the lists of
`(range_start, range_end)` pairs they would yield, exactly as the claim
quantifies over them. -/

/-- `DenseCellRange<T>` (the fields the merge reads and writes):
`fragment_idx_` is `-1` for an empty range, `start_`/`end_` are inclusive
global cell positions.  The `tile_coords_`/`coords_start_`/`coords_end_`
fields are constant `nullptr`-like arguments in the `same_layout` case and
are omitted. -/
structure DenseCellRange where
  fragment_idx_ : Int
  start_ : Nat
  end_ : Nat
deriving DecidableEq, Repr

/-- Modelled from the spec: the priority order of `DenseCellRangeCmp<T>`
(declared in `comparators.h`, not part of the source under study).  The
spec says the min-heap is "keyed by (range-start, fragment-tie-breaker)
where the tie-breaker prefers the higher fragment index", and that "for
equal start positions the higher fragment index pops first".  `pqBefore a b`
is true when `a` pops before `b`. -/
def pqBefore (a b : DenseCellRange) : Bool :=
  decide (a.start_ < b.start_) ||
    (decide (a.start_ = b.start_) && decide (a.fragment_idx_ > b.fragment_idx_))

/-- The priority queue `pq` as a list sorted by pop order; `pqInsert` is
`pq.emplace(...)`.  The head of the list is `pq.top()`. -/
def pqInsert (x : DenseCellRange) : List DenseCellRange → List DenseCellRange
  | [] => [x]
  | y :: rest => if pqBefore x y then x :: y :: rest else y :: pqInsert x rest

/-- The state of `frag_its`: for each fragment, the ranges its iterator has
not yet handed to the queue (the range currently in the queue, if any, is
not included). -/
abbrev FragIters := List (List (Nat × Nat))

/-- `++frag_its[f]` followed by `pq.emplace(f, range_start, range_end, ...)`
when the iterator is not at its end (reader.cc:779-787 and 849-858). -/
def fragAdvance (its : FragIters) (f : Nat) (pq : List DenseCellRange) :
    FragIters × List DenseCellRange :=
  match its.get? f with
  | some ((s, e) :: rs) => (its.set f rs, pqInsert ⟨(f : Int), s, e⟩ pq)
  | _ => (its, pq)

/-- The inner `while` of reader.cc:819-825: keep popping queue tops that
belong to older fragments and are fully contained in the popped range. -/
def dropContained (popped : DenseCellRange) : List DenseCellRange → List DenseCellRange
  | [] => []
  | top :: rest =>
    if decide (popped.fragment_idx_ > top.fragment_idx_) &&
       decide (popped.start_ ≤ top.start_) && decide (popped.end_ ≥ top.end_) then
      dropContained popped rest
    else
      top :: rest

/-- The main `while (!pq.empty())` loop of `compute_dense_cell_ranges`
(reader.cc:771-869) plus the trailing empty-range insertion
(reader.cc:866-869).  `stop` is the C++ parameter `end`; `out` accumulates
`dense_cell_ranges`.  The C++ loop has no implicit variant, so recursion
on an explicit `fuel` models it; `none` means the fuel ran out.
`comp.precedes(popped, start, RANGE_END)` is `popped.end_ < start` and
`comp.succeeds(popped, end, RANGE_START)` is `popped.start_ > end`,
modelled from the spec's step 1 ("If R ends before start, advance its
iterator and skip") and step 2 ("If R starts after end, emit fill and
return") since `comparators.h` is not in the source under study. -/
def cdcrLoop : Nat → FragIters → List DenseCellRange → Nat → Nat →
    List DenseCellRange → Option (List DenseCellRange)
  | 0, _, _, _, _, _ => none
  | fuel + 1, its, pq, start, stop, out =>
    match pq with
    | [] => some (out ++ if start ≤ stop then [⟨-1, start, stop⟩] else [])
    | popped :: pq1 =>
      let fidx := popped.fragment_idx_
      if popped.end_ < start then
        -- popped must be ignored and a new range fetched (reader.cc:778-789)
        let ip := fragAdvance its fidx.toNat pq1
        cdcrLoop fuel ip.1 ip.2 start stop out
      else if popped.start_ > stop then
        -- the search stops - current range is an empty result (reader.cc:792-796)
        some (out ++ [⟨-1, start, stop⟩])
      else
        -- pad an empty range if needed (reader.cc:804-811)
        let pad := decide (popped.start_ > start)
        let padEnd := min stop (popped.start_ - 1)
        let out1 := if pad then out ++ [⟨-1, start, padEnd⟩] else out
        let start1 := if pad then padEnd + 1 else start
        if pad && decide (start1 > stop) then some out1
        else
          let pq2 := dropContained popped pq1
          match pq2 with
          | top :: _ =>
            if decide (top.start_ ≤ stop) && decide (top.start_ > popped.start_) &&
               decide (top.start_ ≤ popped.end_) then
              -- partial result; split and re-insert popped (reader.cc:827-839)
              let newEnd := top.start_ - 1
              let out2 := out1 ++ [⟨fidx, start1, newEnd⟩]
              let start2 := newEnd + 1
              if start2 > stop then some out2
              else
                let pq3 := pqInsert { popped with start_ := top.start_ } pq2
                cdcrLoop fuel its pq3 start2 stop out2
            else
              -- make result (reader.cc:842-862)
              let newEnd := min stop popped.end_
              let out2 := out1 ++ [⟨fidx, start1, newEnd⟩]
              let start2 := newEnd + 1
              let ip := if newEnd = popped.end_ then fragAdvance its fidx.toNat pq2
                        else (its, pq2)
              if start2 > stop then some out2
              else cdcrLoop fuel ip.1 ip.2 start2 stop out2
          | [] =>
            -- make result with an empty queue (reader.cc:842-862)
            let newEnd := min stop popped.end_
            let out2 := out1 ++ [⟨fidx, start1, newEnd⟩]
            let start2 := newEnd + 1
            let ip := if newEnd = popped.end_ then
                        fragAdvance its fidx.toNat ([] : List DenseCellRange)
                      else (its, ([] : List DenseCellRange))
            if start2 > stop then some out2
            else cdcrLoop fuel ip.1 ip.2 start2 stop out2

/-- `Reader::compute_dense_cell_ranges` (reader.cc:734-874): populate the
queue with the first range of every non-finished fragment iterator
(reader.cc:753-768), then run the merge loop. -/
def compute_dense_cell_ranges (frags : FragIters) (start stop fuel : Nat) :
    Option (List DenseCellRange) :=
  let its := frags.map List.tail
  let pq := (frags.enum).foldl
    (fun pq fl =>
      match fl.2 with
      | [] => pq
      | (s, e) :: _ => pqInsert ⟨(fl.1 : Int), s, e⟩ pq)
    []
  cdcrLoop fuel its pq start stop []

/-- The claim's hypothesis on one fragment iterator: its ranges are
non-empty (`start ≤ end`), sorted and pairwise disjoint
(each range ends strictly before the next begins). -/
def fragWellFormed : List (Nat × Nat) → Bool
  | [] => true
  | [r] => decide (r.1 ≤ r.2)
  | a :: b :: rest =>
    decide (a.1 ≤ a.2) && decide (a.2 < b.1) && fragWellFormed (b :: rest)

/-- The claim's hypothesis on the whole iterator set. -/
def itersWellFormed (frags : FragIters) : Prop :=
  ∀ l ∈ frags, fragWellFormed l = true

/-- First half of the claimed invariant: every position of the window
`[start, stop]` is covered by exactly one emitted range. -/
def coversExactlyOnce (start stop : Nat) (out : List DenseCellRange) : Prop :=
  ∀ p ∈ List.range' start (stop + 1 - start),
    out.countP (fun r => decide (r.start_ ≤ p) && decide (p ≤ r.end_)) = 1

/-- Whether some range of one fragment's input covers position `p`. -/
def fragCovers (l : List (Nat × Nat)) (p : Nat) : Bool :=
  l.any (fun r => decide (r.1 ≤ p) && decide (p ≤ r.2))

/-- The fragment index the claim says must annotate position `p`: the
maximum input fragment index covering `p`, and `-1` when none does. -/
def winningFragment (frags : FragIters) (p : Nat) : Int :=
  frags.enum.foldl (fun acc fl => if fragCovers fl.2 p then (fl.1 : Int) else acc) (-1)

/-- Second half of the claimed invariant: every emitted position is
annotated with the maximum covering fragment index (`-1` for gaps). -/
def annotatedWithWinner (frags : FragIters) (start stop : Nat)
    (out : List DenseCellRange) : Prop :=
  ∀ r ∈ out, ∀ p ∈ List.range' start (stop + 1 - start),
    r.start_ ≤ p → p ≤ r.end_ → r.fragment_idx_ = winningFragment frags p

/-- The full claimed invariant of the dense merge. -/
def DenseMergeSpec (frags : FragIters) (start stop : Nat)
    (out : List DenseCellRange) : Prop :=
  coversExactlyOnce start stop out ∧ annotatedWithWinner frags start stop out

/-- Claim C1, refuted on the code: with three well-formed fragment iterators
(fragment 0 yielding `[3,10]`, fragment 1 yielding `[0,7]`, fragment 2
yielding `[0,5]`) and tile window `[0,10]`, `compute_dense_cell_ranges`
emits `[(2,0,5), (1,6,2), (1,3,7), (0,8,10)]`: the range `(1,6,2)` is
degenerate, positions 3..5 are covered twice, and they are annotated with
fragment 1 although fragment 2 covers them.  The merge invariant stated
by the claim (and by the spec) fails because the partial-result branch
(reader.cc:827-839) compares the next top against `popped.start_` instead
of the already-advanced window position `start`. -/
theorem compute_dense_cell_ranges_code_bug :
    itersWellFormed [[(3, 10)], [(0, 7)], [(0, 5)]] ∧
    compute_dense_cell_ranges [[(3, 10)], [(0, 7)], [(0, 5)]] 0 10 100 =
      some [⟨2, 0, 5⟩, ⟨1, 6, 2⟩, ⟨1, 3, 7⟩, ⟨0, 8, 10⟩] ∧
    ¬ DenseMergeSpec [[(3, 10)], [(0, 7)], [(0, 5)]] 0 10
        [⟨2, 0, 5⟩, ⟨1, 6, 2⟩, ⟨1, 3, 7⟩, ⟨0, 8, 10⟩] := by
  refine ⟨by unfold itersWellFormed; decide, by decide, ?_⟩
  intro h
  have h3 := h.1 3 (by decide)
  revert h3
  decide

/-! ## `Reader::dedup_coords` (claim C2)

The in-place linear dedup scan over sorted coordinates
(reader.cc:1554-1578), together with `skip_invalid_elements`
(reader.cc:72-78). -/

/-- `OverlappingCoords<T>` as `dedup_coords` sees it: the dimension tuple
(`coords_`, compared with `memcmp` over `coords_size` bytes, modelled as
equality at an arbitrary coordinate type `γ`), the fragment index of the
source tile (`tile_->fragment_idx_`), and the `valid_` flag. -/
structure OverlappingCoord (γ : Type) where
  coords_ : γ
  fragment_idx_ : Nat
  valid_ : Bool
deriving DecidableEq, Repr

/-- `OverlappingCoords::invalidate`. -/
def OverlappingCoord.invalidate {γ : Type} (c : OverlappingCoord γ) : OverlappingCoord γ :=
  { c with valid_ := false }

/-- The `while (it != coords_end)` loop of `dedup_coords`
(reader.cc:1561-1574), written functionally.  `cur` is the element `it`
points at; `pending` holds (in reverse) the elements strictly between
`it` and the next valid element, all invalid, which the C++ scan walks
over in place; the returned list is the input list with the same elements
in the same positions, only with some `valid_` flags cleared.
The first branch is `skip_invalid_elements` recomputing `next_it`; the
second is the `memcmp` duplicate test; its inner conditional is the
fragment-index comparison choosing which of the two coords to
invalidate. -/
def dedupLoop {γ : Type} [DecidableEq γ] (cur : OverlappingCoord γ)
    (pending : List (OverlappingCoord γ)) :
    List (OverlappingCoord γ) → List (OverlappingCoord γ)
  | [] => cur :: pending.reverse
  | n :: rest =>
    if n.valid_ = false then
      dedupLoop cur (n :: pending) rest
    else if n.coords_ = cur.coords_ then
      if cur.fragment_idx_ < n.fragment_idx_ then
        (cur.invalidate :: pending.reverse) ++ dedupLoop n [] rest
      else
        dedupLoop cur (n.invalidate :: pending) rest
    else
      (cur :: pending.reverse) ++ dedupLoop n [] rest

/-- `Reader::dedup_coords` (reader.cc:1554-1578): position `it` on the
first valid element (`skip_invalid_elements(coords->begin(), ...)`) and
run the scan; leading invalid elements are left untouched. -/
def dedup_coords {γ : Type} [DecidableEq γ] :
    List (OverlappingCoord γ) → List (OverlappingCoord γ)
  | [] => []
  | c :: rest =>
    if c.valid_ = false then c :: dedup_coords rest else dedupLoop c [] rest

/-- Relation between an output entry and the input entry at the same
position: coordinates and fragment index are untouched and the `valid_`
flag is only ever cleared, never set. -/
def sameData {γ : Type} (a b : OverlappingCoord γ) : Prop :=
  a.coords_ = b.coords_ ∧ a.fragment_idx_ = b.fragment_idx_ ∧
    (a.valid_ = true → b.valid_ = true)

theorem sameData_refl {γ : Type} (a : OverlappingCoord γ) : sameData a a :=
  ⟨rfl, rfl, fun h => h⟩

theorem sameData_invalidate {γ : Type} (a : OverlappingCoord γ) :
    sameData a.invalidate a :=
  ⟨rfl, rfl, fun h => by simp [OverlappingCoord.invalidate] at h⟩

theorem forall₂_exists_mem_left {α β : Type} {R : α → β → Prop}
    {l₁ : List α} {l₂ : List β}
    (h : List.Forall₂ R l₁ l₂) {a : α} (ha : a ∈ l₁) : ∃ b ∈ l₂, R a b := by
  induction h with
  | nil => cases ha
  | cons hr _ ih =>
    rcases List.mem_cons.1 ha with rfl | ha'
    · exact ⟨_, List.mem_cons_self _ _, hr⟩
    · obtain ⟨b, hb, hrb⟩ := ih ha'
      exact ⟨b, List.mem_cons_of_mem _ hb, hrb⟩

/-- The four claimed properties of the dedup pass, for input `l` and
output `r`: (1) `r` is `l` with only `valid_` flags cleared; (2) no two
valid survivors share a dimension tuple; (3) every valid survivor carries
the maximum fragment index among the input entries with its tuple (hence,
with (1), any input entry whose fragment index is lower than that of
another input entry with a byte-equal tuple ends up invalidated); (4)
every input tuple still has a valid survivor. -/
def DedupSpec {γ : Type} (l r : List (OverlappingCoord γ)) : Prop :=
  List.Forall₂ sameData r l ∧
  ((r.filter (·.valid_)).Pairwise fun a b => a.coords_ ≠ b.coords_) ∧
  (∀ s ∈ r, s.valid_ = true → ∀ d ∈ l, d.coords_ = s.coords_ →
      d.fragment_idx_ ≤ s.fragment_idx_) ∧
  (∀ c ∈ l, ∃ s ∈ r, s.valid_ = true ∧ s.coords_ = c.coords_)

theorem dedupLoop_pending {γ : Type} [DecidableEq γ]
    (rest : List (OverlappingCoord γ))
    (cur : OverlappingCoord γ) (hv : ∀ x ∈ rest, x.valid_ = true) :
    ∃ b tail, dedupLoop cur [] rest = b :: tail ∧
      ∀ pending, dedupLoop cur pending rest = b :: (pending.reverse ++ tail) := by
  induction rest generalizing cur with
  | nil =>
    exact ⟨cur, [], rfl, fun pending => by simp [dedupLoop]⟩
  | cons n rest ih =>
    have hnv : n.valid_ = true := hv n (List.mem_cons_self _ _)
    have hv' : ∀ x ∈ rest, x.valid_ = true := fun x hx => hv x (List.mem_cons_of_mem _ hx)
    by_cases hc : n.coords_ = cur.coords_
    · by_cases hf : cur.fragment_idx_ < n.fragment_idx_
      · refine ⟨cur.invalidate, dedupLoop n [] rest, ?_, ?_⟩
        · simp [dedupLoop, hnv, hc, hf]
        · intro pending; simp [dedupLoop, hnv, hc, hf]
      · obtain ⟨b, tail, hbase, hpend⟩ := ih cur hv'
        refine ⟨b, n.invalidate :: tail, ?_, ?_⟩
        · simp only [dedupLoop, hnv, hc, hf, if_false, if_true, if_neg, reduceIte]
          rw [hpend [n.invalidate]]; simp
        · intro pending
          simp only [dedupLoop, hnv, hc, hf, reduceIte]
          rw [hpend (n.invalidate :: pending)]; simp
    · refine ⟨cur, dedupLoop n [] rest, ?_, ?_⟩
      · simp [dedupLoop, hnv, hc]
      · intro pending; simp [dedupLoop, hnv, hc]

theorem dedupLoop_spec {γ : Type} [DecidableEq γ] [LinearOrder γ] :
    ∀ (rest : List (OverlappingCoord γ)) (cur : OverlappingCoord γ),
      cur.valid_ = true → (∀ x ∈ rest, x.valid_ = true) →
      (cur :: rest).Pairwise (fun a b => a.coords_ ≤ b.coords_) →
      DedupSpec (cur :: rest) (dedupLoop cur [] rest) := by
  intro rest
  induction rest with
  | nil =>
    intro cur hcv hv hs
    refine ⟨?_, ?_, ?_, ?_⟩
    · exact List.Forall₂.cons (sameData_refl cur) List.Forall₂.nil
    · simp [dedupLoop, hcv]
    · intro s hs' _ d hd hcd
      simp only [dedupLoop, List.reverse_nil, List.mem_singleton] at hs' hd
      subst hs'; subst hd; exact le_refl _
    · intro x hx
      have hx' : x = cur := List.mem_singleton.1 hx
      exact ⟨cur, by simp [dedupLoop], hcv, by rw [hx']⟩
  | cons n rest ih =>
    intro cur hcv hv hs
    have hnv : n.valid_ = true := hv n (List.mem_cons_self _ _)
    have hv' : ∀ x ∈ rest, x.valid_ = true := fun x hx => hv x (List.mem_cons_of_mem _ hx)
    have hs1 : ∀ x ∈ n :: rest, cur.coords_ ≤ x.coords_ := (List.pairwise_cons.1 hs).1
    have hs2 : (n :: rest).Pairwise (fun a b => a.coords_ ≤ b.coords_) :=
      (List.pairwise_cons.1 hs).2
    by_cases hc : n.coords_ = cur.coords_
    · by_cases hf : cur.fragment_idx_ < n.fragment_idx_
      · -- champion replaced: cur invalidated, continue with n
        have hstep : dedupLoop cur [] (n :: rest) = cur.invalidate :: dedupLoop n [] rest := by
          simp [dedupLoop, hnv, hc, hf]
        obtain ⟨ihF, ihP, ihMax, ihSurv⟩ := ih n hnv hv' hs2
        rw [hstep]
        refine ⟨?_, ?_, ?_, ?_⟩
        · exact List.Forall₂.cons (sameData_invalidate cur) ihF
        · simpa [OverlappingCoord.invalidate] using ihP
        · intro s hs' hsv d hd hcd
          have hsmem : s ∈ dedupLoop n [] rest := by
            rcases List.mem_cons.1 hs' with rfl | h
            · simp [OverlappingCoord.invalidate] at hsv
            · exact h
          rcases List.mem_cons.1 hd with rfl | hd'
          · -- d = cur : cur.frag < n.frag ≤ s.frag
            have := ihMax s hsmem hsv n (List.mem_cons_self _ _) (hc.trans hcd)
            omega
          · exact ihMax s hsmem hsv d hd' hcd
        · intro c hcm
          rcases List.mem_cons.1 hcm with rfl | hcm'
          · obtain ⟨s, hsm, hsv, hsc⟩ := ihSurv n (List.mem_cons_self _ _)
            exact ⟨s, List.mem_cons_of_mem _ hsm, hsv, hsc.trans hc⟩
          · obtain ⟨s, hsm, hsv, hsc⟩ := ihSurv c hcm'
            exact ⟨s, List.mem_cons_of_mem _ hsm, hsv, hsc⟩
      · -- duplicate from an older (or equal) fragment: n invalidated
        obtain ⟨b, tail, hbase, hpend⟩ := dedupLoop_pending rest cur hv'
        have hstep : dedupLoop cur [] (n :: rest) = b :: n.invalidate :: tail := by
          simp only [dedupLoop, hnv, hc, hf, reduceIte]
          rw [hpend [n.invalidate]]; simp
        have hsrest : (cur :: rest).Pairwise (fun a b => a.coords_ ≤ b.coords_) := by
          refine List.pairwise_cons.2 ⟨?_, (List.pairwise_cons.1 hs2).2⟩
          exact fun x hx => hs1 x (List.mem_cons_of_mem _ hx)
        obtain ⟨ihF, ihP, ihMax, ihSurv⟩ := ih cur hcv hv' hsrest
        rw [hbase] at ihF ihP ihMax ihSurv
        rw [hstep]
        refine ⟨?_, ?_, ?_, ?_⟩
        · rcases ihF with _ | ⟨hbc, htail⟩
          exact List.Forall₂.cons hbc (List.Forall₂.cons (sameData_invalidate n) htail)
        · simpa [OverlappingCoord.invalidate] using ihP
        · intro s hs' hsv d hd hcd
          have hsmem : s ∈ b :: tail := by
            rcases List.mem_cons.1 hs' with rfl | h
            · exact List.mem_cons_self _ _
            · rcases List.mem_cons.1 h with rfl | h'
              · simp [OverlappingCoord.invalidate] at hsv
              · exact List.mem_cons_of_mem _ h'
          rcases List.mem_cons.1 hd with rfl | hd'
          · exact ihMax s hsmem hsv d (List.mem_cons_self _ _) hcd
          · rcases List.mem_cons.1 hd' with rfl | hd''
            · -- d = n : n.frag ≤ cur.frag ≤ s.frag
              have := ihMax s hsmem hsv cur (List.mem_cons_self _ _) (hc.symm.trans hcd)
              omega
            · exact ihMax s hsmem hsv d (List.mem_cons_of_mem _ hd'') hcd
        · have lift : ∀ s ∈ b :: tail, s ∈ b :: n.invalidate :: tail := by
            intro s h
            rcases List.mem_cons.1 h with rfl | h'
            · exact List.mem_cons_self _ _
            · exact List.mem_cons_of_mem _ (List.mem_cons_of_mem _ h')
          intro c hcm
          rcases List.mem_cons.1 hcm with rfl | hcm'
          · obtain ⟨s, hsm, hsv, hsc⟩ := ihSurv c (List.mem_cons_self _ _)
            exact ⟨s, lift s hsm, hsv, hsc⟩
          · rcases List.mem_cons.1 hcm' with rfl | hcm''
            · obtain ⟨s, hsm, hsv, hsc⟩ := ihSurv cur (List.mem_cons_self _ _)
              exact ⟨s, lift s hsm, hsv, hsc.trans hc.symm⟩
            · obtain ⟨s, hsm, hsv, hsc⟩ := ihSurv c (List.mem_cons_of_mem _ hcm'')
              exact ⟨s, lift s hsm, hsv, hsc⟩
    · -- new coordinate class: cur is final
      have hstep : dedupLoop cur [] (n :: rest) = cur :: dedupLoop n [] rest := by
        simp [dedupLoop, hnv, hc]
      have hne : ∀ x ∈ n :: rest, x.coords_ ≠ cur.coords_ := by
        intro x hx hxc
        rcases List.mem_cons.1 hx with rfl | hx'
        · exact hc hxc
        · have h1 : cur.coords_ ≤ n.coords_ := hs1 n (List.mem_cons_self _ _)
          have h2 : n.coords_ ≤ x.coords_ := (List.pairwise_cons.1 hs2).1 x hx'
          exact hc (le_antisymm (hxc ▸ h2) h1)
      obtain ⟨ihF, ihP, ihMax, ihSurv⟩ := ih n hnv hv' hs2
      have routc : ∀ s ∈ dedupLoop n [] rest, s.coords_ ≠ cur.coords_ := by
        intro s hsm
        obtain ⟨d, hdm, hsd⟩ := forall₂_exists_mem_left ihF hsm
        exact hsd.1 ▸ hne d hdm
      rw [hstep]
      refine ⟨?_, ?_, ?_, ?_⟩
      · exact List.Forall₂.cons (sameData_refl cur) ihF
      · rw [List.filter_cons_of_pos (by simpa using hcv)]
        refine List.pairwise_cons.2 ⟨?_, ihP⟩
        intro s hsm
        exact fun h => routc s (List.mem_of_mem_filter hsm) (h ▸ rfl)
      · intro s hs' hsv d hd hcd
        rcases List.mem_cons.1 hs' with rfl | hsm
        · rcases List.mem_cons.1 hd with rfl | hd'
          · exact le_refl _
          · exact absurd hcd (hne d hd')
        · rcases List.mem_cons.1 hd with rfl | hd'
          · exact absurd hcd.symm (routc s hsm)
          · exact ihMax s hsm hsv d hd' hcd
      · intro x hxm
        rcases List.mem_cons.1 hxm with h | hxm'
        · exact ⟨cur, List.mem_cons_self _ _, hcv, by rw [h]⟩
        · obtain ⟨s, hsm, hsv, hsc⟩ := ihSurv x hxm'
          exact ⟨s, List.mem_cons_of_mem _ hsm, hsv, hsc⟩

/-- Claim C2, confirmed: for every coordinate vector whose entries are all
valid and sorted by the effective layout (equal dimension tuples are
therefore adjacent), `dedup_coords` leaves the entries in place with only
`valid_` flags cleared, no two remaining valid entries have equal
dimension tuples, every valid survivor carries the maximum fragment index
of its tuple (so any entry with a byte-equal tuple from a lower-indexed
fragment is the one invalidated and the higher fragment index survives),
and every tuple keeps exactly one valid representative. -/
theorem dedup_coords_correct {γ : Type} [DecidableEq γ] [LinearOrder γ]
    (l : List (OverlappingCoord γ))
    (hv : ∀ c ∈ l, c.valid_ = true)
    (hs : l.Pairwise (fun a b => a.coords_ ≤ b.coords_)) :
    DedupSpec l (dedup_coords l) := by
  match l with
  | [] =>
    refine ⟨List.Forall₂.nil, by simp [dedup_coords], ?_, ?_⟩
    · intro s hs'; simp [dedup_coords] at hs'
    · intro c hc; simp at hc
  | c :: rest =>
    have hcv : c.valid_ = true := hv c (List.mem_cons_self _ _)
    have : dedup_coords (c :: rest) = dedupLoop c [] rest := by
      simp [dedup_coords, hcv]
    rw [this]
    exact dedupLoop_spec rest c hcv (fun x hx => hv x (List.mem_cons_of_mem _ hx)) hs

/-- Witness for C2: a four-coordinate vector over a 1-D `Nat` domain with a
three-way duplicate across fragments 0, 2 and 1. -/
theorem dedup_coords_correct_witness :
    DedupSpec ([⟨1, 0, true⟩, ⟨1, 2, true⟩, ⟨1, 1, true⟩, ⟨2, 0, true⟩] :
        List (OverlappingCoord Nat))
      (dedup_coords [⟨1, 0, true⟩, ⟨1, 2, true⟩, ⟨1, 1, true⟩, ⟨2, 0, true⟩]) :=
  dedup_coords_correct _ (by decide) (by decide)

/-! ## The cell-range copiers (claims C3, C5, and support for C4)

`Reader::copy_fixed_cells` (reader.cc:1322-1388),
`Reader::copy_var_cells` (reader.cc:1390-1488) and
`Reader::compute_var_cell_destinations` (reader.cc:1490-1552).
Caller buffers are byte lists; a `memcpy` into a buffer is `writeBytes`.
Each copier additionally returns the list of `(destination offset, length)`
pairs of the `memcpy` calls it performs into the caller's buffers, so that
"number of bytes written" is expressible; the overflow branch performs
none. -/

/-- `std::memcpy(buf + off, bytes, bytes.length)` targeting a caller
buffer. -/
def writeBytes (buf : List Nat) (off : Nat) (bytes : List Nat) : List Nat :=
  buf.take off ++ bytes ++ buf.drop (off + bytes.length)

/-- A cell range as `copy_fixed_cells` reads it: the source tile's
unfiltered payload for the attribute being copied (`none` for an empty
range) and the inclusive cell positions. -/
structure FixedCellRange where
  tile_ : Option (List Nat)
  start_ : Nat
  end_ : Nat
deriving DecidableEq, Repr

/-- Result of `copy_fixed_cells`: the overflow flag it raises, the returned
`Status`, the caller buffer, the value of the `*buffer_size` reference, and
the log of `memcpy` destinations it performed. -/
structure FixedCopyResult where
  overflowed : Bool
  status : Status
  buffer : List Nat
  bufferSize : Nat
  writes : List (Nat × Nat)
deriving DecidableEq, Repr

/-- `bytes_to_copy = (cr.end_ - cr.start_ + 1) * cell_size`
(reader.cc:1342). -/
def bytesToCopy (cellSize : Nat) (cr : FixedCellRange) : Nat :=
  (cr.end_ - cr.start_ + 1) * cellSize

/-- The bytes one fixed cell range places in the caller buffer
(reader.cc:1362-1373): `fill_num = bytes_to_copy / fill_size` copies of the
fill value for an empty range, a slice of the tile data otherwise. -/
def fixedRangeBytes (cellSize : Nat) (fillValue : List Nat) (cr : FixedCellRange) :
    List Nat :=
  match cr.tile_ with
  | none =>
    (List.range (bytesToCopy cellSize cr / fillValue.length)).foldl
      (fun acc _ => acc ++ fillValue) []
  | some data =>
    (data.drop (cr.start_ * cellSize)).take (bytesToCopy cellSize cr)

/-- The `memcpy` events of one fixed cell range starting at buffer offset
`off` (reader.cc:1362-1373). -/
def fixedRangeWrites (cellSize fillSize : Nat) (cr : FixedCellRange) (off : Nat) :
    List (Nat × Nat) :=
  match cr.tile_ with
  | none =>
    (List.range (bytesToCopy cellSize cr / fillSize)).map
      (fun j => (off + j * fillSize, fillSize))
  | some _ => [(off, bytesToCopy cellSize cr)]

/-- One step of the sequential destination-offset precomputation
(reader.cc:1336-1345): append the running `buffer_offset` to `cr_offsets`
and advance it by `bytes_to_copy`. -/
def crOffsetsStep (cellSize : Nat) (st : List Nat × Nat) (cr : FixedCellRange) :
    List Nat × Nat :=
  (st.1 ++ [st.2], st.2 + bytesToCopy cellSize cr)

/-- `Reader::copy_fixed_cells` (reader.cc:1322-1388): precompute the
destination offsets, raise the overflow flag and return `Status::Ok`
without copying if the total exceeds `*buffer_size`, otherwise perform the
per-range copies and store the total in `*buffer_size`. -/
def copy_fixed_cells (cellSize : Nat) (fillValue : List Nat)
    (cellRanges : List FixedCellRange) (buffer : List Nat) (bufferSize : Nat) :
    FixedCopyResult :=
  let fillSize := fillValue.length
  let offs := cellRanges.foldl (crOffsetsStep cellSize) ([], 0)
  let crOffsets := offs.1
  let bufferOffset := offs.2
  if bufferOffset > bufferSize then
    { overflowed := true, status := .ok, buffer := buffer,
      bufferSize := bufferSize, writes := [] }
  else
    let final := (cellRanges.zip crOffsets).foldl
      (fun (st : List Nat × List (Nat × Nat)) p =>
        (writeBytes st.1 p.2 (fixedRangeBytes cellSize fillValue p.1),
         st.2 ++ fixedRangeWrites cellSize fillSize p.1 p.2))
      (buffer, [])
    { overflowed := false, status := .ok, buffer := final.1,
      bufferSize := bufferOffset, writes := final.2 }

theorem crOffsets_foldl (cellSize : Nat) (l : List FixedCellRange) :
    ∀ (acc : List Nat) (n : Nat),
      (l.foldl (crOffsetsStep cellSize) (acc, n)).2 =
        n + (l.map (bytesToCopy cellSize)).sum ∧
      (l.foldl (crOffsetsStep cellSize) (acc, n)).1.length = acc.length + l.length := by
  induction l with
  | nil => intro acc n; simp
  | cons cr l ih =>
    intro acc n
    have := ih (acc ++ [n]) (n + bytesToCopy cellSize cr)
    simp only [List.foldl_cons, crOffsetsStep] at *
    constructor
    · rw [this.1]; simp; ring
    · rw [this.2]; simp; omega

theorem fixedRangeWrites_sum (cellSize fillSize : Nat) (cr : FixedCellRange) (off : Nat)
    (h2 : fillSize ∣ cellSize) :
    ((fixedRangeWrites cellSize fillSize cr off).map Prod.snd).sum =
      bytesToCopy cellSize cr := by
  match h : cr.tile_ with
  | some _ => simp [fixedRangeWrites, h]
  | none =>
    have hdvd : fillSize ∣ bytesToCopy cellSize cr := h2.mul_left _
    simp only [fixedRangeWrites, h, List.map_map]
    have : (Prod.snd ∘ fun j => (off + j * fillSize, fillSize)) =
        (fun _ : Nat => fillSize) := rfl
    rw [this]
    rw [List.map_const', List.sum_replicate, smul_eq_mul, List.length_range]
    exact Nat.div_mul_cancel hdvd

theorem fixedWrites_foldl (cellSize : Nat) (fillValue : List Nat)
    (h2 : fillValue.length ∣ cellSize)
    (pairs : List (FixedCellRange × Nat)) :
    ∀ (buf : List Nat) (log : List (Nat × Nat)),
      (((pairs.foldl
        (fun (st : List Nat × List (Nat × Nat)) p =>
          (writeBytes st.1 p.2 (fixedRangeBytes cellSize fillValue p.1),
           st.2 ++ fixedRangeWrites cellSize fillValue.length p.1 p.2))
        (buf, log)).2.map Prod.snd).sum) =
      (log.map Prod.snd).sum + (pairs.map (fun p => bytesToCopy cellSize p.1)).sum := by
  induction pairs with
  | nil => intro buf log; simp
  | cons p pairs ih =>
    intro buf log
    simp only [List.foldl_cons]
    rw [ih]
    simp [fixedRangeWrites_sum cellSize fillValue.length p.1 p.2 h2]
    ring

theorem copy_fixed_cells_overflow (cellSize : Nat) (fillValue : List Nat)
    (cellRanges : List FixedCellRange) (buffer : List Nat) (bufferSize : Nat)
    (h : (cellRanges.map (bytesToCopy cellSize)).sum > bufferSize) :
    copy_fixed_cells cellSize fillValue cellRanges buffer bufferSize =
      { overflowed := true, status := .ok, buffer := buffer,
        bufferSize := bufferSize, writes := [] } := by
  have ht := (crOffsets_foldl cellSize cellRanges [] 0).1
  simp only [copy_fixed_cells]
  rw [if_pos]
  rw [ht]; simpa using h

theorem copy_fixed_cells_size (cellSize : Nat) (fillValue : List Nat)
    (cellRanges : List FixedCellRange) (buffer : List Nat) (bufferSize : Nat)
    (h2 : fillValue.length ∣ cellSize)
    (h : ¬ (cellRanges.map (bytesToCopy cellSize)).sum > bufferSize) :
    (copy_fixed_cells cellSize fillValue cellRanges buffer bufferSize).overflowed = false ∧
    (copy_fixed_cells cellSize fillValue cellRanges buffer bufferSize).bufferSize =
      (((copy_fixed_cells cellSize fillValue cellRanges buffer bufferSize).writes.map
        Prod.snd).sum) := by
  have ht := crOffsets_foldl cellSize cellRanges [] 0
  simp only [copy_fixed_cells]
  rw [if_neg (by rw [ht.1]; simpa using h)]
  refine ⟨rfl, ?_⟩
  simp only
  rw [fixedWrites_foldl cellSize fillValue h2]
  rw [ht.1]
  have hlen : cellRanges.length ≤
      (cellRanges.foldl (crOffsetsStep cellSize) ([], 0)).1.length := by
    rw [ht.2]; simp
  have hmap : ∀ (zs : List Nat), cellRanges.length ≤ zs.length →
      ((cellRanges.zip zs).map (fun p => bytesToCopy cellSize p.1)).sum =
        (cellRanges.map (bytesToCopy cellSize)).sum := by
    intro zs hz
    rw [show (fun p : FixedCellRange × Nat => bytesToCopy cellSize p.1) =
        (bytesToCopy cellSize) ∘ Prod.fst from rfl, ← List.map_map,
      List.map_fst_zip _ _ hz]
  rw [hmap _ hlen]
  simp

/-- The pair of tiles of a var-sized attribute: the offsets tile (a list
of absolute 64-bit offsets) and the values tile (raw bytes). -/
structure VarTile where
  offsets : List Nat
  varData : List Nat
deriving DecidableEq, Repr

/-- `tile.cell_num()` of the offsets tile. -/
def VarTile.cellNum (t : VarTile) : Nat := t.offsets.length

/-- `tile_var.size()`. -/
def VarTile.varSize (t : VarTile) : Nat := t.varData.length

/-- A cell range as `copy_var_cells` reads it. -/
structure VarCellRange where
  tile_ : Option VarTile
  start_ : Nat
  end_ : Nat
deriving DecidableEq, Repr

/-- `constants::cell_var_offset_size` = `sizeof(uint64_t)`. -/
def offsetSizeC : Nat := 8

/-- The size of one variable-sized cell (reader.cc:1532-1541, identical
arithmetic at reader.cc:1461-1464): `fill_size` for an empty cell,
`tile_offsets[i+1] - tile_offsets[i]` for an interior cell and
`tile_var_size - (tile_offsets[i] - tile_offsets[0])` for the last cell of
a tile. -/
def cellVarSize (fillSize : Nat) (cr : VarCellRange) (cellIdx : Nat) : Nat :=
  match cr.tile_ with
  | none => fillSize
  | some t =>
    if cellIdx ≠ t.cellNum - 1 then
      t.offsets.getD (cellIdx + 1) 0 - t.offsets.getD cellIdx 0
    else
      t.varSize - (t.offsets.getD cellIdx 0 - t.offsets.getD 0 0)

/-- The cell indices `cr.start_ .. cr.end_` iterated by the two per-cell
loops (reader.cc:1530 and reader.cc:1448). -/
def cellIdxList (cr : VarCellRange) : List Nat :=
  (List.range (cr.end_ - cr.start_ + 1)).map (cr.start_ + ·)

/-- The four outputs of `compute_var_cell_destinations`. -/
structure VarDestinations where
  offsetOffsetsPerCr : List (List Nat)
  varOffsetsPerCr : List (List Nat)
  totalOffsetSize : Nat
  totalVarSize : Nat
deriving DecidableEq, Repr

/-- The inner per-cell step of `compute_var_cell_destinations`
(reader.cc:1530-1548): record the two destination offsets, then advance
the totals by `offset_size` and the cell's var size. -/
def varDestCellStep (fillSize : Nat) (cr : VarCellRange)
    (st2 : List Nat × List Nat × Nat × Nat) (cellIdx : Nat) :
    List Nat × List Nat × Nat × Nat :=
  let cvs := cellVarSize fillSize cr cellIdx
  (st2.1 ++ [st2.2.2.1], st2.2.1 ++ [st2.2.2.2], st2.2.2.1 + offsetSizeC, st2.2.2.2 + cvs)

/-- The outer per-range step of `compute_var_cell_destinations`
(reader.cc:1510-1549). -/
def varDestRangeStep (fillSize : Nat) (st : VarDestinations) (cr : VarCellRange) :
    VarDestinations :=
  let inner := (cellIdxList cr).foldl (varDestCellStep fillSize cr)
    ([], [], st.totalOffsetSize, st.totalVarSize)
  { offsetOffsetsPerCr := st.offsetOffsetsPerCr ++ [inner.1],
    varOffsetsPerCr := st.varOffsetsPerCr ++ [inner.2.1],
    totalOffsetSize := inner.2.2.1,
    totalVarSize := inner.2.2.2 }

/-- `Reader::compute_var_cell_destinations` (reader.cc:1490-1552). -/
def compute_var_cell_destinations (fillSize : Nat)
    (cellRanges : List VarCellRange) : VarDestinations :=
  cellRanges.foldl (varDestRangeStep fillSize)
    { offsetOffsetsPerCr := [], varOffsetsPerCr := [],
      totalOffsetSize := 0, totalVarSize := 0 }

/-- Little-endian byte image of the `uint64_t` offset value that
reader.cc:1455 memcpy's into the offsets buffer. -/
def encodeOffset (v : Nat) : List Nat :=
  (List.range offsetSizeC).map (fun i => v / 256 ^ i % 256)

/-- Result of `copy_var_cells`, with the `memcpy` logs for the offsets
buffer and the values buffer. -/
structure VarCopyResult where
  overflowed : Bool
  status : Status
  buffer : List Nat
  bufferVar : List Nat
  bufferSize : Nat
  bufferVarSize : Nat
  offsetWrites : List (Nat × Nat)
  varWrites : List (Nat × Nat)
deriving DecidableEq, Repr

/-- The value bytes `copy_var_cells` writes for one cell
(reader.cc:1457-1469).  For a non-empty cell these are a slice of the
values tile.  For an empty cell the source executes
`std::memcpy(var_dest, &fill_value, fill_size)`, where `fill_value` is the
local `const void*` returned by `constants::fill_value(type)`
(reader.cc:1403): the copied bytes are the in-memory representation of
that pointer object itself, not the fill bytes it points to; `fillPtrBytes`
models the bytes located at `&fill_value`.  (`copy_fixed_cells` passes
`fill_value` without `&` at reader.cc:1366 and copies the pointed-to fill
bytes.) -/
def varCellBytes (fillSize : Nat) (fillPtrBytes : List Nat)
    (cr : VarCellRange) (cellIdx : Nat) : List Nat :=
  match cr.tile_ with
  | none => fillPtrBytes.take fillSize
  | some t =>
    (t.varData.drop (t.offsets.getD cellIdx 0 - t.offsets.getD 0 0)).take
      (cellVarSize fillSize cr cellIdx)

/-- The per-cell body of the second (copy) pass of `copy_var_cells`
(reader.cc:1448-1470): write the cell's absolute var offset into the
offsets buffer and the cell's value bytes into the values buffer. -/
def varCopyCellStep (fillSize : Nat) (fillPtrBytes : List Nat) (cr : VarCellRange)
    (offsetOffsets varOffsets : List Nat)
    (st2 : List Nat × List Nat × List (Nat × Nat) × List (Nat × Nat)) (cellIdx : Nat) :
    List Nat × List Nat × List (Nat × Nat) × List (Nat × Nat) :=
  let destVecIdx := cellIdx - cr.start_
  let offsetDest := offsetOffsets.getD destVecIdx 0
  let varOffset := varOffsets.getD destVecIdx 0
  let vbytes := varCellBytes fillSize fillPtrBytes cr cellIdx
  (writeBytes st2.1 offsetDest (encodeOffset varOffset),
   writeBytes st2.2.1 varOffset vbytes,
   st2.2.2.1 ++ [(offsetDest, offsetSizeC)],
   st2.2.2.2 ++ [(varOffset, cellVarSize fillSize cr cellIdx)])

/-- The per-range body of the copy pass (reader.cc:1427-1473); `p.1` is the
range index `cr_idx` selecting the destination vectors. -/
def varCopyRangeStep (fillSize : Nat) (fillPtrBytes : List Nat) (dst : VarDestinations)
    (st : List Nat × List Nat × List (Nat × Nat) × List (Nat × Nat))
    (p : Nat × VarCellRange) :
    List Nat × List Nat × List (Nat × Nat) × List (Nat × Nat) :=
  (cellIdxList p.2).foldl
    (varCopyCellStep fillSize fillPtrBytes p.2
      (dst.offsetOffsetsPerCr.getD p.1 []) (dst.varOffsetsPerCr.getD p.1 [])) st

/-- `Reader::copy_var_cells` (reader.cc:1390-1488): compute the
destinations, raise the overflow flag and return `Status::Ok` without
copying if either total exceeds its buffer capacity, otherwise perform the
copies and store the totals in the two size references. -/
def copy_var_cells (fillSize : Nat) (fillPtrBytes : List Nat)
    (cellRanges : List VarCellRange)
    (buffer bufferVar : List Nat) (bufferSize bufferVarSize : Nat) :
    VarCopyResult :=
  let dst := compute_var_cell_destinations fillSize cellRanges
  if dst.totalOffsetSize > bufferSize || dst.totalVarSize > bufferVarSize then
    { overflowed := true, status := .ok, buffer := buffer, bufferVar := bufferVar,
      bufferSize := bufferSize, bufferVarSize := bufferVarSize,
      offsetWrites := [], varWrites := [] }
  else
    let final := cellRanges.enum.foldl (varCopyRangeStep fillSize fillPtrBytes dst)
      (buffer, bufferVar, [], [])
    { overflowed := false, status := .ok,
      buffer := final.1, bufferVar := final.2.1,
      bufferSize := dst.totalOffsetSize, bufferVarSize := dst.totalVarSize,
      offsetWrites := final.2.2.1, varWrites := final.2.2.2 }

theorem varDestCell_foldl (fillSize : Nat) (cr : VarCellRange) (idxs : List Nat) :
    ∀ (oo vo : List Nat) (tOff tVar : Nat),
      (idxs.foldl (varDestCellStep fillSize cr) (oo, vo, tOff, tVar)).2.2.1 =
        tOff + offsetSizeC * idxs.length ∧
      (idxs.foldl (varDestCellStep fillSize cr) (oo, vo, tOff, tVar)).2.2.2 =
        tVar + (idxs.map (cellVarSize fillSize cr)).sum := by
  induction idxs with
  | nil => intro oo vo tOff tVar; simp
  | cons i idxs ih =>
    intro oo vo tOff tVar
    simp only [List.foldl_cons, varDestCellStep]
    constructor
    · rw [(ih _ _ _ _).1]; simp; ring
    · rw [(ih _ _ _ _).2]; simp; ring

theorem compute_var_totals_aux (fillSize : Nat) (l : List VarCellRange) :
    ∀ (st : VarDestinations),
      (l.foldl (varDestRangeStep fillSize) st).totalOffsetSize =
        st.totalOffsetSize +
          offsetSizeC * (l.map (fun cr => (cellIdxList cr).length)).sum ∧
      (l.foldl (varDestRangeStep fillSize) st).totalVarSize =
        st.totalVarSize +
          (l.map (fun cr => ((cellIdxList cr).map (cellVarSize fillSize cr)).sum)).sum := by
  induction l with
  | nil => intro st; simp
  | cons cr l ih =>
    intro st
    simp only [List.foldl_cons]
    have h := varDestCell_foldl fillSize cr (cellIdxList cr) [] []
      st.totalOffsetSize st.totalVarSize
    constructor
    · rw [(ih _).1]
      simp only [varDestRangeStep, h.1]
      simp [Nat.mul_add]; ring
    · rw [(ih _).2]
      simp only [varDestRangeStep, h.2]
      simp; ring

theorem varCopyCell_foldl (fillSize : Nat) (fillPtrBytes : List Nat)
    (cr : VarCellRange) (oo vo : List Nat) (idxs : List Nat) :
    ∀ (b bv : List Nat) (lo lv : List (Nat × Nat)),
      (((idxs.foldl (varCopyCellStep fillSize fillPtrBytes cr oo vo)
          (b, bv, lo, lv)).2.2.1).map Prod.snd).sum =
        (lo.map Prod.snd).sum + offsetSizeC * idxs.length ∧
      (((idxs.foldl (varCopyCellStep fillSize fillPtrBytes cr oo vo)
          (b, bv, lo, lv)).2.2.2).map Prod.snd).sum =
        (lv.map Prod.snd).sum + (idxs.map (cellVarSize fillSize cr)).sum := by
  induction idxs with
  | nil => intro b bv lo lv; simp
  | cons i idxs ih =>
    intro b bv lo lv
    simp only [List.foldl_cons, varCopyCellStep]
    constructor
    · rw [(ih _ _ _ _).1]; simp; ring
    · rw [(ih _ _ _ _).2]; simp; ring

theorem varCopyRange_foldl (fillSize : Nat) (fillPtrBytes : List Nat)
    (dst : VarDestinations) (l : List VarCellRange) :
    ∀ (k : Nat) (b bv : List Nat) (lo lv : List (Nat × Nat)),
      ((((l.enumFrom k).foldl (varCopyRangeStep fillSize fillPtrBytes dst)
          (b, bv, lo, lv)).2.2.1).map Prod.snd).sum =
        (lo.map Prod.snd).sum +
          offsetSizeC * (l.map (fun cr => (cellIdxList cr).length)).sum ∧
      ((((l.enumFrom k).foldl (varCopyRangeStep fillSize fillPtrBytes dst)
          (b, bv, lo, lv)).2.2.2).map Prod.snd).sum =
        (lv.map Prod.snd).sum +
          (l.map (fun cr => ((cellIdxList cr).map (cellVarSize fillSize cr)).sum)).sum := by
  induction l with
  | nil => intro k b bv lo lv; simp
  | cons cr l ih =>
    intro k b bv lo lv
    simp only [List.enumFrom, List.foldl_cons]
    obtain ⟨x, y, z, w, hxyzw⟩ :
        ∃ x y z w, varCopyRangeStep fillSize fillPtrBytes dst (b, bv, lo, lv) (k, cr) =
          (x, y, z, w) := ⟨_, _, _, _, rfl⟩
    have hcell := varCopyCell_foldl fillSize fillPtrBytes cr
      (dst.offsetOffsetsPerCr.getD k []) (dst.varOffsetsPerCr.getD k [])
      (cellIdxList cr) b bv lo lv
    have hfold : (cellIdxList cr).foldl
        (varCopyCellStep fillSize fillPtrBytes cr
          (dst.offsetOffsetsPerCr.getD k []) (dst.varOffsetsPerCr.getD k []))
        (b, bv, lo, lv) = (x, y, z, w) := hxyzw
    rw [hfold] at hcell
    rw [hxyzw]
    constructor
    · rw [(ih (k + 1) x y z w).1]
      simp only at hcell
      rw [hcell.1]
      simp [Nat.mul_add]
      ring
    · rw [(ih (k + 1) x y z w).2]
      simp only at hcell
      rw [hcell.2]
      simp
      ring

theorem copy_var_cells_overflow (fillSize : Nat) (fillPtrBytes : List Nat)
    (cellRanges : List VarCellRange) (buffer bufferVar : List Nat)
    (bufferSize bufferVarSize : Nat)
    (h : (compute_var_cell_destinations fillSize cellRanges).totalOffsetSize > bufferSize ∨
         (compute_var_cell_destinations fillSize cellRanges).totalVarSize > bufferVarSize) :
    copy_var_cells fillSize fillPtrBytes cellRanges buffer bufferVar bufferSize bufferVarSize =
      { overflowed := true, status := .ok, buffer := buffer, bufferVar := bufferVar,
        bufferSize := bufferSize, bufferVarSize := bufferVarSize,
        offsetWrites := [], varWrites := [] } := by
  simp only [copy_var_cells]
  rw [if_pos]
  rcases h with h | h <;> simp [h]

theorem copy_var_cells_size (fillSize : Nat) (fillPtrBytes : List Nat)
    (cellRanges : List VarCellRange) (buffer bufferVar : List Nat)
    (bufferSize bufferVarSize : Nat)
    (h : ¬ ((compute_var_cell_destinations fillSize cellRanges).totalOffsetSize > bufferSize ∨
            (compute_var_cell_destinations fillSize cellRanges).totalVarSize > bufferVarSize)) :
    (copy_var_cells fillSize fillPtrBytes cellRanges buffer bufferVar
        bufferSize bufferVarSize).overflowed = false ∧
    (copy_var_cells fillSize fillPtrBytes cellRanges buffer bufferVar
        bufferSize bufferVarSize).bufferSize =
      (((copy_var_cells fillSize fillPtrBytes cellRanges buffer bufferVar
        bufferSize bufferVarSize).offsetWrites).map Prod.snd).sum ∧
    (copy_var_cells fillSize fillPtrBytes cellRanges buffer bufferVar
        bufferSize bufferVarSize).bufferVarSize =
      (((copy_var_cells fillSize fillPtrBytes cellRanges buffer bufferVar
        bufferSize bufferVarSize).varWrites).map Prod.snd).sum := by
  push_neg at h
  simp only [copy_var_cells]
  rw [if_neg (by simp; omega)]
  refine ⟨rfl, ?_, ?_⟩
  · simp only
    have hlog := (varCopyRange_foldl fillSize fillPtrBytes
      (compute_var_cell_destinations fillSize cellRanges) cellRanges 0
      buffer bufferVar [] []).1
    have htot := (compute_var_totals_aux fillSize cellRanges
      { offsetOffsetsPerCr := [], varOffsetsPerCr := [],
        totalOffsetSize := 0, totalVarSize := 0 }).1
    rw [show cellRanges.enum = cellRanges.enumFrom 0 from rfl]
    rw [hlog]
    rw [show compute_var_cell_destinations fillSize cellRanges =
      cellRanges.foldl (varDestRangeStep fillSize)
        { offsetOffsetsPerCr := [], varOffsetsPerCr := [],
          totalOffsetSize := 0, totalVarSize := 0 } from rfl, htot]
    simp
  · simp only
    have hlog := (varCopyRange_foldl fillSize fillPtrBytes
      (compute_var_cell_destinations fillSize cellRanges) cellRanges 0
      buffer bufferVar [] []).2
    have htot := (compute_var_totals_aux fillSize cellRanges
      { offsetOffsetsPerCr := [], varOffsetsPerCr := [],
        totalOffsetSize := 0, totalVarSize := 0 }).2
    rw [show cellRanges.enum = cellRanges.enumFrom 0 from rfl]
    rw [hlog]
    rw [show compute_var_cell_destinations fillSize cellRanges =
      cellRanges.foldl (varDestRangeStep fillSize)
        { offsetOffsetsPerCr := [], varOffsetsPerCr := [],
          totalOffsetSize := 0, totalVarSize := 0 } from rfl, htot]
    simp

/-- Claim C3, confirmed: both copiers first precompute the destination
totals; when the fixed total exceeds the buffer capacity (respectively,
when the offsets total or the values total of a var-sized attribute
exceeds its buffer capacity), the copier raises the overflow flag,
returns `Status::Ok`, leaves every caller buffer byte-for-byte unchanged,
performs no `memcpy` into them, and leaves the size references at their
incoming values. -/
theorem copy_cells_overflow_no_write
    (cellSize : Nat) (fillValue : List Nat) (fixedRanges : List FixedCellRange)
    (buffer : List Nat) (bufferSize : Nat)
    (fillSize : Nat) (fillPtrBytes : List Nat) (varRanges : List VarCellRange)
    (vBuffer vBufferVar : List Nat) (vBufferSize vBufferVarSize : Nat)
    (hfix : (fixedRanges.map (bytesToCopy cellSize)).sum > bufferSize)
    (hvar : (compute_var_cell_destinations fillSize varRanges).totalOffsetSize >
        vBufferSize ∨
      (compute_var_cell_destinations fillSize varRanges).totalVarSize > vBufferVarSize) :
    copy_fixed_cells cellSize fillValue fixedRanges buffer bufferSize =
      { overflowed := true, status := .ok, buffer := buffer,
        bufferSize := bufferSize, writes := [] } ∧
    copy_var_cells fillSize fillPtrBytes varRanges vBuffer vBufferVar
        vBufferSize vBufferVarSize =
      { overflowed := true, status := .ok, buffer := vBuffer, bufferVar := vBufferVar,
        bufferSize := vBufferSize, bufferVarSize := vBufferVarSize,
        offsetWrites := [], varWrites := [] } :=
  ⟨copy_fixed_cells_overflow cellSize fillValue fixedRanges buffer bufferSize hfix,
   copy_var_cells_overflow fillSize fillPtrBytes varRanges vBuffer vBufferVar
     vBufferSize vBufferVarSize hvar⟩

/-- Witness for C3: one fixed range of three 4-byte cells against an
8-byte buffer, and one var range of two cells (5 value bytes) against a
16-byte offsets buffer and a 4-byte values buffer. -/
theorem copy_cells_overflow_no_write_witness :
    copy_fixed_cells 4 [9, 9, 9, 9] [⟨none, 0, 2⟩] [0, 0, 0, 0, 0, 0, 0, 0] 8 =
      { overflowed := true, status := .ok, buffer := [0, 0, 0, 0, 0, 0, 0, 0],
        bufferSize := 8, writes := [] } ∧
    copy_var_cells 4 [1, 2, 3, 4, 5, 6, 7, 8]
        [⟨some ⟨[100, 102], [10, 11, 12, 13, 14]⟩, 0, 1⟩]
        (List.replicate 16 0) (List.replicate 4 0) 16 4 =
      { overflowed := true, status := .ok, buffer := List.replicate 16 0,
        bufferVar := List.replicate 4 0,
        bufferSize := 16, bufferVarSize := 4,
        offsetWrites := [], varWrites := [] } :=
  copy_cells_overflow_no_write 4 [9, 9, 9, 9] [⟨none, 0, 2⟩] [0, 0, 0, 0, 0, 0, 0, 0] 8
    4 [1, 2, 3, 4, 5, 6, 7, 8] [⟨some ⟨[100, 102], [10, 11, 12, 13, 14]⟩, 0, 1⟩]
    (List.replicate 16 0) (List.replicate 4 0) 16 4
    (by decide) (by decide)

/-- Claim C5, refuted on the code (reader.cc:1459): for an empty cell of a
var-sized attribute the copy executes `memcpy(var_dest, &fill_value,
fill_size)`, so the `fill_size` bytes that land in the values buffer are
the in-memory bytes of the local pointer variable `fill_value` (modelled
here as `fillPtrBytes = [201, 202, 203, 204, ...]`), not the type's fill
value that the pointer refers to.  The length accounting
(`cell_var_size = fill_size`, reader.cc:1535) does match the claim: one
fill-value-sized contribution per empty cell. -/
theorem copy_var_cells_fill_code_bug :
    (copy_var_cells 4 [201, 202, 203, 204, 205, 206, 207, 208] [⟨none, 0, 0⟩]
        (List.replicate 8 0) (List.replicate 4 0) 8 4).bufferVar =
      [201, 202, 203, 204] ∧
    (copy_var_cells 4 [201, 202, 203, 204, 205, 206, 207, 208] [⟨none, 0, 0⟩]
        (List.replicate 8 0) (List.replicate 4 0) 8 4).overflowed = false ∧
    (compute_var_cell_destinations 4 [⟨none, 0, 0⟩]).totalVarSize = 4 := by
  decide

/-! ## `Reader::next_subarray_partition` (claim C6) and `Reader::read`
(claim C4), legacy path -/

/-- The per-attribute state the legacy read path manipulates: schema facts
(`isVar`, `cellSize`, the fill value bytes, the bytes at `&fill_value`),
the caller buffers, the two size references (`size`, `varSize`), the
original sizes snapshotted at `set_buffer` time, and (ghost) the `memcpy`
log of the current partition attempt, cleared by `reset_buffer_sizes`. -/
structure AttrState where
  name : String
  isVar : Bool
  cellSize : Nat
  fillValue : List Nat
  fillPtrBytes : List Nat
  buffer : List Nat
  bufferVar : List Nat
  size : Nat
  varSize : Nat
  origSize : Nat
  origVarSize : Nat
  writes : List (Nat × Nat)
  varWrites : List (Nat × Nat)
deriving DecidableEq, Repr

/-- The collaborators of the legacy read loop, over an abstract partition
type `π`:

* `splitSubarray` — `Domain::split_subarray(partition, layout, ...)`.
  Modelled from the spec: external to the source under study; returns the
  two halves, or nothing when the partition cannot be split.
* `estSizes` — `StorageManager::array_compute_est_read_buffer_sizes`
  followed by the `uint64_t(round(...))` conversions of
  reader.cc:297-298.  Modelled from the spec: external; yields the rounded
  (fixed/offsets, var) estimate per attribute.
* `skeleton` — the cell-range list the planning stages produce for a
  partition: source tile id (or `none` for an empty range) and inclusive
  start/end positions, shared by all attributes.
* `tileFixed`/`tileVar` — the unfiltered payload of a tile for an
  attribute, as `attr_tiles_` resolves it. -/
structure ReadEnv (π : Type) where
  splitSubarray : π → Option (π × π)
  estSizes : π → String → Nat × Nat
  skeleton : π → List (Option Nat × Nat × Nat)
  tileFixed : Nat → String → List Nat
  tileVar : Nat → String → VarTile

/-- The legacy `Reader::ReadState` fields driving `read`. -/
structure LegacyReadState (π : Type) where
  overflowed : Bool
  unsplittable : Bool
  cur : Option π
  pendings : List π
deriving DecidableEq, Repr

/-- The `no_results` test of the partition loop (reader.cc:281-289): the
popped partition is skipped iff the first (fixed/offsets) estimate is zero
for every attribute. -/
def estNoResults {π : Type} (env : ReadEnv π) (attrs : List AttrState) (p : π) : Bool :=
  attrs.all (fun a => (env.estSizes p a.name).1 = 0)

/-- The `must_split` test (reader.cc:292-302): some attribute's rounded
estimate exceeds its original buffer size, or, for a var-sized attribute,
the var estimate exceeds the var buffer size. -/
def mustSplit {π : Type} (env : ReadEnv π) (attrs : List AttrState) (p : π) : Bool :=
  attrs.any (fun a =>
    decide ((env.estSizes p a.name).1 > a.origSize) ||
    (a.isVar && decide ((env.estSizes p a.name).2 > a.origVarSize)))

/-- The `do { ... } while (!found && !partitions.empty())` loop of
`next_subarray_partition` (reader.cc:258-324), with an explicit fuel
(`none` = fuel ran out).  Returns the partition that became current (or
`none` when every pending partition was consumed without results), the
`unsplittable_` flag, and the remaining pending list. -/
def nspLoop {π : Type} (env : ReadEnv π) (attrs : List AttrState) :
    Nat → List π → Option (Option π × Bool × List π)
  | 0, _ => none
  | _ + 1, [] => some (none, false, [])
  | fuel + 1, p :: rest =>
    if estNoResults env attrs p then
      -- no results: skip this partition (reader.cc:288-289)
      if rest.isEmpty then some (none, false, [])
      else nspLoop env attrs fuel rest
    else if mustSplit env attrs p then
      match env.splitSubarray p with
      | none => some (some p, true, rest)      -- reader.cc:314-316
      | some (p1, p2) => nspLoop env attrs fuel (p1 :: p2 :: rest)  -- reader.cc:317-319
    else some (some p, false, rest)            -- reader.cc:321-322

/-- The tail of `next_subarray_partition` after the overflow handling
(reader.cc:240-340): bail out with a null current partition when nothing
is pending, otherwise run the loop and install its result. -/
def nspFinish {π : Type} (env : ReadEnv π) (attrs : List AttrState) (fuel : Nat)
    (s : LegacyReadState π) : Option (LegacyReadState π) :=
  if s.pendings.isEmpty then some { s with cur := none }
  else
    match nspLoop env attrs fuel s.pendings with
    | none => none
    | some (found, uns, remaining) =>
      match found with
      | some p => some { s with cur := some p, unsplittable := uns, pendings := remaining }
      | none => some { s with cur := none, unsplittable := uns, pendings := remaining }

/-- `Reader::next_subarray_partition` (reader.cc:220-343): clear
`unsplittable_`, split the current partition first when the last attempt
overflowed (returning immediately with `unsplittable_` set if it cannot be
split), then search the pending list for the next current partition. -/
def next_subarray_partition {π : Type} (env : ReadEnv π) (attrs : List AttrState)
    (fuel : Nat) (s : LegacyReadState π) : Option (LegacyReadState π) :=
  let s0 := { s with unsplittable := false }
  if s0.overflowed then
    match s0.cur with
    | some p =>
      match env.splitSubarray p with
      | some (p1, p2) =>
        nspFinish env attrs fuel { s0 with pendings := p1 :: p2 :: s0.pendings }
      | none => some { s0 with unsplittable := true }
    | none => nspFinish env attrs fuel s0
  else nspFinish env attrs fuel s0

/-- `Reader::zero_out_buffer_sizes` (reader.cc:2645-2652). -/
def zero_out_buffer_sizes (attrs : List AttrState) : List AttrState :=
  attrs.map (fun a => { a with size := 0, varSize := 0 })

/-- `Reader::reset_buffer_sizes` (reader.cc:2461-2467); also starts a fresh
(ghost) `memcpy` log for the new partition attempt. -/
def reset_buffer_sizes (attrs : List AttrState) : List AttrState :=
  attrs.map (fun a => { a with size := a.origSize, varSize := a.origVarSize,
                               writes := [], varWrites := [] })

/-- The fixed cell ranges of one attribute for a partition: the shared
skeleton with each tile id resolved to that attribute's tile payload. -/
def fixedRangesOf {π : Type} (env : ReadEnv π) (p : π) (attrName : String) :
    List FixedCellRange :=
  (env.skeleton p).map (fun r => ⟨r.1.map (fun t => env.tileFixed t attrName), r.2.1, r.2.2⟩)

/-- The var cell ranges of one attribute for a partition. -/
def varRangesOf {π : Type} (env : ReadEnv π) (p : π) (attrName : String) :
    List VarCellRange :=
  (env.skeleton p).map (fun r => ⟨r.1.map (fun t => env.tileVar t attrName), r.2.1, r.2.2⟩)

/-- The var/fixed dispatch of `Reader::copy_cells` (reader.cc:1317-1319)
applied to one attribute state; returns the updated state and the overflow
flag the copier raised. -/
def copyAttr {π : Type} (env : ReadEnv π) (p : π) (a : AttrState) : AttrState × Bool :=
  if a.isVar then
    let res := copy_var_cells a.fillValue.length a.fillPtrBytes (varRangesOf env p a.name)
      a.buffer a.bufferVar a.size a.varSize
    ({ a with buffer := res.buffer, bufferVar := res.bufferVar,
              size := res.bufferSize, varSize := res.bufferVarSize,
              writes := res.offsetWrites, varWrites := res.varWrites }, res.overflowed)
  else
    let res := copy_fixed_cells a.cellSize a.fillValue (fixedRangesOf env p a.name)
      a.buffer a.size
    ({ a with buffer := res.buffer, size := res.bufferSize, writes := res.writes },
     res.overflowed)

/-- `Reader::copy_cells` (reader.cc:1309-1320) for the attribute named
`nm`: zero out every buffer size when the cell-range list is empty,
otherwise run the matching copier on that attribute. -/
def copy_cells (π : Type) (env : ReadEnv π) (p : π) (nm : String)
    (attrs : List AttrState) : List AttrState × Bool :=
  if (env.skeleton p).isEmpty then (zero_out_buffer_sizes attrs, false)
  else
    ((attrs.map (fun a => if a.name = nm then (copyAttr env p a).1 else a)),
     attrs.any (fun a => a.name = nm && (copyAttr env p a).2))

/-- The per-attribute copy loop of a partition attempt
(reader.cc:2580-2584): stop copying as soon as an attribute overflows. -/
def copyPhase {π : Type} (env : ReadEnv π) (p : π) :
    List String → List AttrState → Bool → List AttrState × Bool
  | [], attrs, ov => (attrs, ov)
  | nm :: rest, attrs, ov =>
    if ov then (attrs, ov)
    else
      let r := copy_cells π env p nm attrs
      copyPhase env p rest r.1 r.2

/-- The `do { ... } while (no_results && cur != nullptr)` loop of
`Reader::read` (reader.cc:366-395), with fuel.  `p` is the current
partition (`cur_subarray_partition_`, known non-null inside the loop). -/
def readLoop {π : Type} (env : ReadEnv π) :
    Nat → List AttrState → LegacyReadState π → π →
      Option (Status × List AttrState × LegacyReadState π)
  | 0, _, _, _ => none
  | fuel + 1, attrs, s, p =>
    -- reader.cc:367-368
    let s1 := { s with overflowed := false }
    let attrs1 := reset_buffer_sizes attrs
    -- the dense/sparse pipeline's copy phase (reader.cc:370-375)
    let cp := copyPhase env p (attrs1.map (·.name)) attrs1 false
    let attrs2 := cp.1
    let ov := cp.2
    let s2 := { s1 with overflowed := ov }
    -- reader.cc:380-381
    let attrs3 := if ov then zero_out_buffer_sizes attrs2 else attrs2
    -- reader.cc:384
    match next_subarray_partition env attrs3 (fuel + 1) s2 with
    | none => none
    | some s3 =>
      -- reader.cc:389-392
      if s3.unsplittable && s2.overflowed then
        some (.ok, zero_out_buffer_sizes attrs3, s3)
      else
        -- reader.cc:394-395
        if attrs3.all (fun a => a.size = 0) then
          match s3.cur with
          | some p' => readLoop env fuel attrs3 s3 p'
          | none => some (.ok, attrs3, s3)
        else some (.ok, attrs3, s3)

/-- `Reader::read` (reader.cc:353-400), legacy path with at least one
fragment: return immediately with zeroed sizes when there is no current
partition (reader.cc:359-363), otherwise run the loop. -/
def read {π : Type} (env : ReadEnv π) (fuel : Nat) (attrs : List AttrState)
    (s : LegacyReadState π) :
    Option (Status × List AttrState × LegacyReadState π) :=
  match s.cur with
  | none => some (.ok, zero_out_buffer_sizes attrs, s)
  | some p => readLoop env fuel attrs s p

/-- Claim C6 as amended: for every popped pending partition `p`:
if the estimated result size is zero for all attributes the partition is
skipped (the loop continues with the next pending partition, and
terminates with no current partition when none is left); if some
attribute's rounded estimate exceeds that attribute's original buffer
size (or, var-sized, the var estimate exceeds the var buffer size) and
the domain can split the partition, its two halves are pushed to the
front of the pending list before any read is attempted; if it cannot be
split (single-cell partition), the partition becomes the current
partition with the `unsplittable_` flag raised; otherwise the partition
becomes the current partition. -/
theorem next_subarray_partition_pop_behavior {π : Type} (env : ReadEnv π)
    (attrs : List AttrState) (fuel : Nat) (p : π) (rest : List π) :
    (estNoResults env attrs p = true → rest ≠ [] →
      nspLoop env attrs (fuel + 1) (p :: rest) = nspLoop env attrs fuel rest) ∧
    (estNoResults env attrs p = true → rest = [] →
      nspLoop env attrs (fuel + 1) (p :: rest) = some (none, false, [])) ∧
    (estNoResults env attrs p = false → mustSplit env attrs p = true →
      ∀ p1 p2, env.splitSubarray p = some (p1, p2) →
      nspLoop env attrs (fuel + 1) (p :: rest) =
        nspLoop env attrs fuel (p1 :: p2 :: rest)) ∧
    (estNoResults env attrs p = false → mustSplit env attrs p = true →
      env.splitSubarray p = none →
      nspLoop env attrs (fuel + 1) (p :: rest) = some (some p, true, rest)) ∧
    (estNoResults env attrs p = false → mustSplit env attrs p = false →
      nspLoop env attrs (fuel + 1) (p :: rest) = some (some p, false, rest)) := by
  refine ⟨?_, ?_, ?_, ?_, ?_⟩
  · intro h1 h2
    simp [nspLoop, h1, h2]
  · intro h1 h2
    subst h2
    simp [nspLoop, h1]
  · intro h1 h2 p1 p2 h3
    simp [nspLoop, h1, h2, h3]
  · intro h1 h2 h3
    simp [nspLoop, h1, h2, h3]
  · intro h1 h2
    simp [nspLoop, h1, h2]

/-- A concrete environment on `π := Nat` whose split oracle can never
split: every partition is a single cell. -/
def nspEnv0 : ReadEnv Nat :=
  { splitSubarray := fun _ => none,
    estSizes := fun _ _ => (100, 0),
    skeleton := fun _ => [],
    tileFixed := fun _ _ => [],
    tileVar := fun _ _ => ⟨[], []⟩ }

/-- One fixed attribute whose original buffer holds 10 bytes. -/
def nspAttr0 : AttrState :=
  { name := "a", isVar := false, cellSize := 4, fillValue := [0, 0, 0, 0],
    fillPtrBytes := [], buffer := List.replicate 10 0, bufferVar := [],
    size := 10, varSize := 0, origSize := 10, origVarSize := 0,
    writes := [], varWrites := [] }

/-- Counterexample to claim C6 as stated: partition `5` is popped, its
estimate (100 bytes) exceeds the 10-byte original buffer size, yet it is
not split with halves pushed to the pending list — the domain cannot
split it, and it becomes the current partition with `unsplittable_`
raised. -/
theorem next_subarray_partition_unsplittable_counterexample :
    estNoResults nspEnv0 [nspAttr0] 5 = false ∧
    mustSplit nspEnv0 [nspAttr0] 5 = true ∧
    nspEnv0.splitSubarray 5 = none ∧
    nspLoop nspEnv0 [nspAttr0] 2 [5] = some (some 5, true, []) := by
  refine ⟨by decide, by decide, rfl, by decide⟩

/-- A concrete splittable environment for the witness: partition `7`
splits into `3` and `4`, estimates always exceed the budget. -/
def nspEnv1 : ReadEnv Nat :=
  { splitSubarray := fun p => if p = 7 then some (3, 4) else none,
    estSizes := fun _ _ => (100, 0),
    skeleton := fun _ => [],
    tileFixed := fun _ _ => [],
    tileVar := fun _ _ => ⟨[], []⟩ }

/-- Witness for the amended C6 (the split-and-push case): popping the
over-budget splittable partition `7` pushes its halves `3, 4` to the front
of the pending list and continues the loop. -/
theorem next_subarray_partition_pop_behavior_witness :
    nspLoop nspEnv1 [nspAttr0] 3 [7] = nspLoop nspEnv1 [nspAttr0] 2 [3, 4] :=
  (next_subarray_partition_pop_behavior nspEnv1 [nspAttr0] 2 7 []).2.2.1
    (by decide) (by decide) 3 4 (by decide)

/-! ### Claim C4: buffer sizes on return from a partition attempt -/

/-- The size references of one attribute agree exactly with the bytes its
copier wrote during the last attempt: `*buffer_size_` equals the summed
lengths of the `memcpy` calls into the fixed/offsets buffer, and for a
var-sized attribute `*buffer_var_size_` equals the summed lengths of the
`memcpy` calls into the values buffer. -/
def SizeOk (a : AttrState) : Prop :=
  a.size = (a.writes.map Prod.snd).sum ∧
  (a.isVar = true → a.varSize = (a.varWrites.map Prod.snd).sum)

/-- Schema well-formedness used by the fixed copier's fill loop: the cell
size of a fixed attribute is a multiple of its datatype (fill) size, as
`cell_size = cell_val_num * datatype_size` guarantees in the schema. -/
def AttrsWF (attrs : List AttrState) : Prop :=
  ∀ a ∈ attrs, a.isVar = false → a.fillValue.length ∣ a.cellSize

theorem copy_fixed_cells_size_of_flag (cellSize : Nat) (fillValue : List Nat)
    (cellRanges : List FixedCellRange) (buffer : List Nat) (bufferSize : Nat)
    (h2 : fillValue.length ∣ cellSize)
    (h : (copy_fixed_cells cellSize fillValue cellRanges buffer bufferSize).overflowed =
      false) :
    (copy_fixed_cells cellSize fillValue cellRanges buffer bufferSize).bufferSize =
      (((copy_fixed_cells cellSize fillValue cellRanges buffer bufferSize).writes.map
        Prod.snd).sum) := by
  by_cases hov : (cellRanges.map (bytesToCopy cellSize)).sum > bufferSize
  · rw [copy_fixed_cells_overflow cellSize fillValue cellRanges buffer bufferSize hov] at h
    simp at h
  · exact (copy_fixed_cells_size cellSize fillValue cellRanges buffer bufferSize h2 hov).2

theorem copy_var_cells_size_of_flag (fillSize : Nat) (fillPtrBytes : List Nat)
    (cellRanges : List VarCellRange) (buffer bufferVar : List Nat)
    (bufferSize bufferVarSize : Nat)
    (h : (copy_var_cells fillSize fillPtrBytes cellRanges buffer bufferVar
        bufferSize bufferVarSize).overflowed = false) :
    (copy_var_cells fillSize fillPtrBytes cellRanges buffer bufferVar
        bufferSize bufferVarSize).bufferSize =
      (((copy_var_cells fillSize fillPtrBytes cellRanges buffer bufferVar
        bufferSize bufferVarSize).offsetWrites).map Prod.snd).sum ∧
    (copy_var_cells fillSize fillPtrBytes cellRanges buffer bufferVar
        bufferSize bufferVarSize).bufferVarSize =
      (((copy_var_cells fillSize fillPtrBytes cellRanges buffer bufferVar
        bufferSize bufferVarSize).varWrites).map Prod.snd).sum := by
  by_cases hov : (compute_var_cell_destinations fillSize cellRanges).totalOffsetSize >
      bufferSize ∨
    (compute_var_cell_destinations fillSize cellRanges).totalVarSize > bufferVarSize
  · rw [copy_var_cells_overflow fillSize fillPtrBytes cellRanges buffer bufferVar
      bufferSize bufferVarSize hov] at h
    simp at h
  · exact ⟨(copy_var_cells_size fillSize fillPtrBytes cellRanges buffer bufferVar
      bufferSize bufferVarSize hov).2.1,
      (copy_var_cells_size fillSize fillPtrBytes cellRanges buffer bufferVar
      bufferSize bufferVarSize hov).2.2⟩

theorem copyAttr_meta {π : Type} (env : ReadEnv π) (p : π) (a : AttrState) :
    ((copyAttr env p a).1).name = a.name ∧
    ((copyAttr env p a).1).isVar = a.isVar ∧
    ((copyAttr env p a).1).fillValue = a.fillValue ∧
    ((copyAttr env p a).1).cellSize = a.cellSize := by
  unfold copyAttr
  by_cases hv : a.isVar = true <;> simp [hv]

theorem copyAttr_sizeok {π : Type} (env : ReadEnv π) (p : π) (a : AttrState)
    (hwf : a.isVar = false → a.fillValue.length ∣ a.cellSize)
    (h : (copyAttr env p a).2 = false) : SizeOk (copyAttr env p a).1 := by
  by_cases hv : a.isVar = true
  · have h' : (copy_var_cells a.fillValue.length a.fillPtrBytes (varRangesOf env p a.name)
        a.buffer a.bufferVar a.size a.varSize).overflowed = false := by
      unfold copyAttr at h
      simpa [hv] using h
    have hs := copy_var_cells_size_of_flag a.fillValue.length a.fillPtrBytes
      (varRangesOf env p a.name) a.buffer a.bufferVar a.size a.varSize h'
    unfold copyAttr
    simp only [hv, reduceIte]
    exact ⟨hs.1, fun _ => hs.2⟩
  · have hv' : a.isVar = false := by revert hv; cases a.isVar <;> simp
    have h' : (copy_fixed_cells a.cellSize a.fillValue (fixedRangesOf env p a.name)
        a.buffer a.size).overflowed = false := by
      unfold copyAttr at h
      simpa [hv'] using h
    have hs := copy_fixed_cells_size_of_flag a.cellSize a.fillValue
      (fixedRangesOf env p a.name) a.buffer a.size (hwf hv') h'
    unfold copyAttr
    simp only [hv', reduceIte]
    exact ⟨hs, fun hcontra => by simp [hv'] at hcontra⟩

theorem AttrsWF_map (attrs : List AttrState) (f : AttrState → AttrState)
    (hf : ∀ a, (f a).isVar = a.isVar ∧ (f a).fillValue = a.fillValue ∧
      (f a).cellSize = a.cellSize)
    (h : AttrsWF attrs) : AttrsWF (attrs.map f) := by
  intro a' ha' hvar
  obtain ⟨a, ha, rfl⟩ := List.mem_map.1 ha'
  rw [(hf a).2.1, (hf a).2.2]
  exact h a ha (by rw [← (hf a).1]; exact hvar)

theorem zero_out_wf (attrs : List AttrState) (h : AttrsWF attrs) :
    AttrsWF (zero_out_buffer_sizes attrs) :=
  AttrsWF_map attrs _ (fun _ => ⟨rfl, rfl, rfl⟩) h

theorem reset_wf (attrs : List AttrState) (h : AttrsWF attrs) :
    AttrsWF (reset_buffer_sizes attrs) :=
  AttrsWF_map attrs _ (fun _ => ⟨rfl, rfl, rfl⟩) h

theorem copy_cells_wf {π : Type} (env : ReadEnv π) (p : π) (nm : String)
    (attrs : List AttrState) (h : AttrsWF attrs) :
    AttrsWF (copy_cells π env p nm attrs).1 := by
  unfold copy_cells
  by_cases hsk : (env.skeleton p).isEmpty
  · simp only [hsk, if_true, reduceIte]
    exact zero_out_wf attrs h
  · simp only [hsk, reduceIte]
    refine AttrsWF_map attrs _ (fun a => ?_) h
    by_cases hnm : a.name = nm
    · simp only [hnm, if_true, reduceIte]
      exact ⟨(copyAttr_meta env p a).2.1, (copyAttr_meta env p a).2.2.1,
        (copyAttr_meta env p a).2.2.2⟩
    · simp [hnm]

theorem copyPhase_wf {π : Type} (env : ReadEnv π) (p : π) (names : List String) :
    ∀ (attrs : List AttrState) (ov : Bool), AttrsWF attrs →
      AttrsWF (copyPhase env p names attrs ov).1 := by
  induction names with
  | nil => intro attrs ov h; exact h
  | cons nm rest ih =>
    intro attrs ov h
    by_cases hov : ov = true
    · simp [copyPhase, hov]; exact h
    · have hov' : ov = false := by revert hov; cases ov <;> simp
      simp only [copyPhase, hov', reduceIte]
      exact ih _ _ (copy_cells_wf env p nm attrs h)

theorem copyPhase_true {π : Type} (env : ReadEnv π) (p : π) (names : List String)
    (attrs : List AttrState) : copyPhase env p names attrs true = (attrs, true) := by
  cases names <;> simp [copyPhase]

theorem zero_out_sizes (attrs : List AttrState) :
    ∀ a ∈ zero_out_buffer_sizes attrs, a.size = 0 ∧ a.varSize = 0 := by
  intro a ha
  obtain ⟨b, _, rfl⟩ := List.mem_map.1 ha
  exact ⟨rfl, rfl⟩

theorem copyPhase_sizeok {π : Type} (env : ReadEnv π) (p : π) (names : List String) :
    ∀ attrs : List AttrState, AttrsWF attrs →
      (∀ a ∈ attrs, a.name ∉ names → SizeOk a) →
      ((env.skeleton p).isEmpty = true → ∀ a ∈ attrs, a.writes = [] ∧ a.varWrites = []) →
      (copyPhase env p names attrs false).2 = false →
      ∀ a ∈ (copyPhase env p names attrs false).1, SizeOk a := by
  induction names with
  | nil =>
    intro attrs _ hI _ _ a ha
    exact hI a ha (by simp)
  | cons nm rest ih =>
    intro attrs hwf hI hlog hov
    simp only [copyPhase, reduceIte] at hov ⊢
    by_cases hr : (copy_cells π env p nm attrs).2 = true
    · rw [hr, copyPhase_true] at hov
      cases hov
    · have hr' : (copy_cells π env p nm attrs).2 = false := by
        revert hr; cases (copy_cells π env p nm attrs).2 <;> simp
      rw [hr'] at hov ⊢
      refine ih (copy_cells π env p nm attrs).1 (copy_cells_wf env p nm attrs hwf)
        ?_ ?_ hov
      · -- the invariant for the remaining names
        intro a' ha' hnotin
        unfold copy_cells at ha'
        by_cases hsk : (env.skeleton p).isEmpty
        · -- empty skeleton: everything is zeroed and logs are empty
          simp only [hsk, if_true, reduceIte] at ha'
          obtain ⟨a, ha, rfl⟩ := List.mem_map.1 ha'
          have hl := hlog hsk a ha
          constructor
          · show (0 : Nat) = _
            rw [hl.1]; rfl
          · intro _
            show (0 : Nat) = _
            rw [hl.2]; rfl
        · simp only [hsk, reduceIte] at ha'
          obtain ⟨a, ha, rfl⟩ := List.mem_map.1 ha'
          by_cases hnm : a.name = nm
          · simp only [hnm, if_true, reduceIte]
            refine copyAttr_sizeok env p a (hwf a ha) ?_
            -- the overall flag of this step is false, so this attribute's is
            unfold copy_cells at hr'
            simp only [hsk, reduceIte] at hr'
            have hall : ∀ x ∈ attrs, x.name = nm → (copyAttr env p x).2 = false := by
              simpa using hr'
            exact hall a ha hnm
          · simp only [hnm, reduceIte]
            refine hI a ha ?_
            intro hmem
            rcases List.mem_cons.1 hmem with h1 | h1
            · exact hnm h1
            · -- a.name ∈ rest, but the copy left a untouched; contradiction
              -- with hnotin (the membership is on the untouched element)
              exact hnotin (by simpa [hnm] using h1)
      · -- log emptiness for the remaining names
        intro hsk a' ha'
        unfold copy_cells at ha'
        simp only [hsk, if_true, reduceIte] at ha'
        obtain ⟨a, ha, rfl⟩ := List.mem_map.1 ha'
        exact hlog hsk a ha

theorem nspFinish_overflowed {π : Type} (env : ReadEnv π) (attrs : List AttrState)
    (fuel : Nat) (s s' : LegacyReadState π)
    (h : nspFinish env attrs fuel s = some s') : s'.overflowed = s.overflowed := by
  unfold nspFinish at h
  split at h
  · cases h; rfl
  · split at h
    · cases h
    · split at h
      · cases h; rfl
      · cases h; rfl

theorem next_subarray_partition_overflowed {π : Type} (env : ReadEnv π)
    (attrs : List AttrState) (fuel : Nat) (s s' : LegacyReadState π)
    (h : next_subarray_partition env attrs fuel s = some s') :
    s'.overflowed = s.overflowed := by
  unfold next_subarray_partition at h
  dsimp only at h
  split at h
  · split at h
    · split at h
      · have := nspFinish_overflowed _ _ _ _ _ h
        exact this
      · cases h; rfl
    · have := nspFinish_overflowed _ _ _ _ _ h
      exact this
  · have := nspFinish_overflowed _ _ _ _ _ h
    exact this

theorem zero_out_all_zero (attrs : List AttrState) :
    (zero_out_buffer_sizes attrs).all (fun a => a.size = 0) = true := by
  rw [List.all_eq_true]
  intro a ha
  obtain ⟨b, _, rfl⟩ := List.mem_map.1 ha
  simp

theorem reset_logs (attrs : List AttrState) :
    ∀ a ∈ reset_buffer_sizes attrs, a.writes = [] ∧ a.varWrites = [] := by
  intro a ha
  obtain ⟨b, _, rfl⟩ := List.mem_map.1 ha
  exact ⟨rfl, rfl⟩

/-- The property claim C4 asserts on every return from a partition
attempt. -/
def C4Post {π : Type} (attrs : List AttrState) (s : LegacyReadState π) : Prop :=
  (s.overflowed = true → ∀ a ∈ attrs, a.size = 0 ∧ a.varSize = 0) ∧
  (s.overflowed = false → ∀ a ∈ attrs, SizeOk a)

theorem copyPhase_post {π : Type} (env : ReadEnv π) (p : π) (attrs : List AttrState)
    (hwf : AttrsWF attrs)
    (hov : (copyPhase env p ((reset_buffer_sizes attrs).map (fun a => a.name))
        (reset_buffer_sizes attrs) false).2 = false) :
    ∀ a ∈ (copyPhase env p ((reset_buffer_sizes attrs).map (fun a => a.name))
        (reset_buffer_sizes attrs) false).1, SizeOk a := by
  refine copyPhase_sizeok env p _ _ (reset_wf attrs hwf) ?_ ?_ hov
  · intro a ha hmem
    exact absurd (List.mem_map_of_mem (fun a => a.name) ha) hmem
  · intro _ a ha
    exact reset_logs attrs a ha

theorem readLoop_spec {π : Type} (env : ReadEnv π) :
    ∀ (fuel : Nat) (attrs : List AttrState) (s : LegacyReadState π) (p : π)
      (st : Status) (attrs' : List AttrState) (s' : LegacyReadState π),
      AttrsWF attrs →
      readLoop env fuel attrs s p = some (st, attrs', s') →
      C4Post attrs' s' := by
  intro fuel
  induction fuel with
  | zero =>
    intro attrs s p st attrs' s' _ h
    simp [readLoop] at h
  | succ fuel ih =>
    intro attrs s p st attrs' s' hwf h
    simp only [readLoop] at h
    rcases hcp : copyPhase env p ((reset_buffer_sizes attrs).map (fun a => a.name))
        (reset_buffer_sizes attrs) false with ⟨attrs2, ov⟩
    rw [hcp] at h
    simp only at h
    have hwf2 : AttrsWF attrs2 := by
      have := copyPhase_wf env p ((reset_buffer_sizes attrs).map (fun a => a.name))
        (reset_buffer_sizes attrs) false (reset_wf attrs hwf)
      rw [hcp] at this
      exact this
    cases ov with
    | false =>
      simp only [Bool.false_eq_true, reduceIte, Bool.and_false] at h
      rcases hnsp : next_subarray_partition env attrs2 (fuel + 1)
          { s with overflowed := false } with _ | s3
      · rw [hnsp] at h; cases h
      · rw [hnsp] at h
        have hovf3 : s3.overflowed = false :=
          next_subarray_partition_overflowed env attrs2 (fuel + 1) _ s3 hnsp
        have hsz : ∀ a ∈ attrs2, SizeOk a := by
          have hpost := copyPhase_post env p attrs hwf (by rw [hcp])
          rw [hcp] at hpost
          exact hpost
        simp only at h
        split at h
        · split at h
          · exact ih attrs2 s3 _ st attrs' s' hwf2 h
          · cases h
            exact ⟨fun hc => absurd (hovf3 ▸ hc) (by simp), fun _ => hsz⟩
        · cases h
          exact ⟨fun hc => absurd (hovf3 ▸ hc) (by simp), fun _ => hsz⟩
    | true =>
      simp only [reduceIte, Bool.and_true] at h
      rcases hnsp : next_subarray_partition env (zero_out_buffer_sizes attrs2) (fuel + 1)
          { s with overflowed := true } with _ | s3
      · rw [hnsp] at h; cases h
      · rw [hnsp] at h
        have hovf3 : s3.overflowed = true :=
          next_subarray_partition_overflowed env _ (fuel + 1) _ s3 hnsp
        simp only at h
        split at h
        · -- unsplittable and overflowed: sizes zeroed, return
          cases h
          refine ⟨fun _ => zero_out_sizes _, fun hc => absurd (hovf3 ▸ hc) (by simp)⟩
        · rw [zero_out_all_zero attrs2] at h
          simp only [reduceIte] at h
          split at h
          · exact ih _ s3 _ st attrs' s' (zero_out_wf _ hwf2) h
          · cases h
            refine ⟨fun _ => zero_out_sizes _, fun hc => absurd (hovf3 ▸ hc) (by simp)⟩

/-- Claim C4, confirmed on the legacy `read` path: whenever `read` returns
`some` result after working on a current partition, then — if the final
state is overflowed (including the unsplittable-partition terminal case
and the case where splitting exhausted the pending list) every
attribute's buffer-size and var-size reference is zero; and if it is not
overflowed, each attribute's buffer-size reference (and var-size
reference for a var-sized attribute) equals exactly the summed byte count
of the `memcpy` calls the last partition attempt performed into that
buffer. -/
theorem read_buffer_sizes {π : Type} (env : ReadEnv π) (fuel : Nat)
    (attrs : List AttrState) (s : LegacyReadState π) (st : Status)
    (attrs' : List AttrState) (s' : LegacyReadState π)
    (hwf : AttrsWF attrs)
    (hcur : s.cur ≠ none)
    (h : read env fuel attrs s = some (st, attrs', s')) :
    (s'.overflowed = true → ∀ a ∈ attrs', a.size = 0 ∧ a.varSize = 0) ∧
    (s'.overflowed = false → ∀ a ∈ attrs', SizeOk a) := by
  unfold read at h
  rcases hc : s.cur with _ | p
  · exact absurd hc hcur
  · rw [hc] at h
    exact readLoop_spec env fuel attrs s p st attrs' s' hwf h

end TileDB

namespace TileDB

def readEnvW : ReadEnv Nat :=
  { splitSubarray := fun _ => none,
    estSizes := fun _ _ => (8, 0),
    skeleton := fun _ => [(some 0, 0, 1)],
    tileFixed := fun _ _ => [1, 2, 3, 4, 5, 6, 7, 8],
    tileVar := fun _ _ => ⟨[], []⟩ }

def attrW : AttrState :=
  { name := "a", isVar := false, cellSize := 4, fillValue := [7, 7, 7, 7],
    fillPtrBytes := [], buffer := List.replicate 8 0, bufferVar := [],
    size := 8, varSize := 0, origSize := 8, origVarSize := 0,
    writes := [], varWrites := [] }

def readStateW : LegacyReadState Nat :=
  { overflowed := false, unsplittable := false, cur := some 1, pendings := [] }

/-- The result attribute state of the witness run: 8 bytes copied from the
tile, one memcpy of 8 bytes logged, `*buffer_size = 8`. -/
def attrWOut : AttrState :=
  { attrW with buffer := [1, 2, 3, 4, 5, 6, 7, 8], writes := [(0, 8)] }

/-- The result read state of the witness run: partition consumed without
overflow. -/
def readStateWOut : LegacyReadState Nat :=
  { overflowed := false, unsplittable := false, cur := none, pendings := [] }

/-- Witness for C4: a one-attribute read of a two-cell fixed range that
fits its 8-byte buffer exactly. -/
theorem read_buffer_sizes_witness :
    (readStateWOut.overflowed = true → ∀ a ∈ [attrWOut], a.size = 0 ∧ a.varSize = 0) ∧
    (readStateWOut.overflowed = false → ∀ a ∈ [attrWOut], SizeOk a) :=
  read_buffer_sizes readEnvW 3 [attrW] readStateW .ok [attrWOut] readStateWOut
    (by intro a ha hv; rw [List.mem_singleton] at ha; subst ha; decide)
    (by decide)
    (by rfl)

/-! ## Claim C7: `Reader::incomplete` -/

/-- Claim C7, confirmed: `incomplete()` returns true if and only if the
active read state's overflow flag is set or partitions remain to be
processed — on the new (Subarray) path, the partitioner is not done; on
the legacy path, the current subarray partition pointer is non-null
(reader.cc:121-131). -/
theorem incomplete_iff (s : IncompleteState) :
    incomplete s = true ↔
      (if s.set2 = true then s.overflowed2 = true ∨ s.done2 = false
       else s.overflowed = true ∨ s.curSubarrayPartition ≠ none) := by
  unfold incomplete
  cases h2 : s.set2 <;>
    cases ho : s.overflowed <;>
    cases ho2 : s.overflowed2 <;>
    cases hd : s.done2 <;>
    cases hc : s.curSubarrayPartition <;>
    simp

/-! ## Claim C8: dense reads on real-typed domains -/

/-- Counterexample to claim C8 as stated: on the Subarray-based `read_2`
path a FLOAT32/FLOAT64 dense read does not return an error status — the
explicit specializations `dense_read_2<float>` / `dense_read_2<double>`
(reader.cc:1702-1714) execute `assert(false); return Status::Ok();`, so
in a release build `Status::Ok` comes back (and the caller at
reader.cc:454 discards it); only a debug build aborts. -/
theorem read_2_dense_float_returns_ok :
    (read_2_dense_dispatch .float32).status = .ok ∧
    (read_2_dense_dispatch .float64).status = .ok ∧
    (read_2_dense_dispatch .float32).status.isOk = true := by
  decide

/-- Claim C8 as amended: the legacy `dense_read` dispatch
(reader.cc:1580-1605) rejects FLOAT32 and FLOAT64 coordinates with an
"Unsupported domain type" error before performing any read; the
Subarray-based `read_2` path instead reaches `assert(false)` in the
float/double specializations and, the assertion aside, returns
`Status::Ok` rather than an error. -/
theorem dense_read_real_domain :
    dense_read_dispatch .float32 = .error "Cannot read; Unsupported domain type" ∧
    dense_read_dispatch .float64 = .error "Cannot read; Unsupported domain type" ∧
    read_2_dense_dispatch .float32 = { assertionFailed := true, status := .ok } ∧
    read_2_dense_dispatch .float64 = { assertionFailed := true, status := .ok } := by
  decide

/-! ## Claim C9: 1-D layout override on the legacy path -/

/-- Claim C9, confirmed: on the legacy path (`read_state_2_.set_` false), a
successful `init()` on an array with exactly one dimension overwrites the
layout with `GLOBAL_ORDER` regardless of the layout previously set via
`set_layout`, so subsequent legacy sorts use the global-order comparator
`GlobalCmp` (reader.cc:194-205, 2281-2284, 2469-2487). -/
theorem init_1D_layout_override (s : InitState)
    (hd : s.dimNum = 1) (hlegacy : s.set2 = false)
    (hok : (init s).1 = .ok) :
    (init s).2.layout = .global_order ∧
    sort_coords_comparator (init s).2.layout = .globalCmp := by
  have hlay : (init s).2.layout = .global_order := by
    unfold init at hok ⊢
    cases h1 : s.storageManagerSet with
    | false => simp [h1] at hok
    | true =>
      cases h2 : s.schemaSet with
      | false => simp [h1, h2] at hok
      | true =>
        cases h3 : s.buffersNonempty with
        | false => simp [h1, h2, h3] at hok
        | true =>
          cases h4 : s.attributesNonempty with
          | false => simp [h1, h2, h3, h4] at hok
          | true =>
            cases h5 : s.configOk with
            | false => simp [h1, h2, h3, h4, h5] at hok
            | true =>
              simp only [h1, h2, h3, h4, h5, hlegacy, Bool.not_true,
                Bool.not_false, Bool.false_eq_true, reduceIte]
              unfold optimize_layout_for_1D
              simp [hd]
  exact ⟨hlay, by rw [hlay]; rfl⟩

/-- Witness for C9: a fully set up legacy reader on a 1-D array whose
caller asked for `ROW_MAJOR`. -/
theorem init_1D_layout_override_witness :
    (init ⟨true, true, true, true, true, false, 1, .row_major⟩).2.layout =
      .global_order ∧
    sort_coords_comparator
      (init ⟨true, true, true, true, true, false, 1, .row_major⟩).2.layout =
      .globalCmp :=
  init_1D_layout_override _ rfl rfl (by decide)

/-! ## Claim C10: `Reader::set_buffer` after initialization

The two overloads at reader.cc:490-537 (fixed) and reader.cc:539-591
(var-sized). -/

/-- The facts the overloads consult from `ArraySchema`: each attribute's
name and whether it is var-sized (`var_size`). -/
structure SchemaModel where
  attrs : List (String × Bool)
deriving DecidableEq, Repr

/-- `constants::coords`. -/
def coordsName : String := "__coords"

/-- `array_schema_->attribute(name)` (null when the name is unknown). -/
def SchemaModel.attributeOf (sc : SchemaModel) (nm : String) : Option Bool :=
  (sc.attrs.find? (fun a => a.1 = nm)).map Prod.snd

/-- `array_schema_->var_size(name)`. -/
def SchemaModel.var_size (sc : SchemaModel) (nm : String) : Bool :=
  ((sc.attrs.find? (fun a => a.1 = nm)).map Prod.snd).getD false

/-- The buffer record `attr_buffers_[attribute]` holds after `set_buffer`:
the caller pointers, as opaque ids (`AttributeBuffer(buffer, nullptr,
buffer_size, nullptr)` for fixed, `AttributeBuffer(buffer_off, buffer_val,
buffer_off_size, buffer_val_size)` for var-sized). -/
inductive AttrBufferVal where
  | fixed (buffer bufferSize : Nat)
  | varSized (bufferOff bufferOffSize bufferVal bufferValSize : Nat)
deriving DecidableEq, Repr

/-- The `Reader` state the two `set_buffer` overloads read and write:
whether the schema is set, `read_state_.initialized_`, the
`attr_buffers_` map and the `attributes_` vector. -/
structure SetBufferState where
  schema : Option SchemaModel
  initialized : Bool
  attrBuffers : List (String × AttrBufferVal)
  attributes : List String
deriving DecidableEq, Repr

/-- `attr_buffers_.find(attribute) != attr_buffers_.end()`. -/
def SetBufferState.attrExists (s : SetBufferState) (nm : String) : Bool :=
  (s.attrBuffers.find? (fun a => a.1 = nm)).isSome

/-- `attr_buffers_[attribute] = v` — replace the existing entry or insert
a new one. -/
def SetBufferState.store (s : SetBufferState) (nm : String) (v : AttrBufferVal) :
    List (String × AttrBufferVal) :=
  if s.attrExists nm then
    s.attrBuffers.map (fun a => if a.1 = nm then (nm, v) else a)
  else
    s.attrBuffers ++ [(nm, v)]

/-- The fixed-attribute `Reader::set_buffer` overload (reader.cc:490-537).
`buffer`/`bufferSize` are the caller pointers, `none` meaning `nullptr`.
The partitioner budget update (reader.cc:528-530) touches no state modelled
here. -/
def set_buffer (s : SetBufferState) (attrName : String)
    (buffer bufferSize : Option Nat) : Status × SetBufferState :=
  match buffer, bufferSize with
  | some b, some bs =>
    match s.schema with
    | none => (.error "Cannot set buffer; Array schema not set", s)
    | some sc =>
      if attrName ≠ coordsName ∧ sc.attributeOf attrName = none then
        (.error "Cannot set buffer; Invalid attribute", s)
      else if attrName ≠ coordsName && sc.var_size attrName then
        (.error "Cannot set buffer; Input attribute is var-sized", s)
      else if s.initialized && !s.attrExists attrName then
        (.error "Cannot set buffer for new attribute after initialization", s)
      else
        (.ok,
         { s with
            attributes := if s.attrExists attrName then s.attributes
                          else s.attributes ++ [attrName],
            attrBuffers := s.store attrName (.fixed b bs) })
  | _, _ => (.error "Cannot set buffer; Buffer or buffer size is null", s)

/-- The var-attribute `Reader::set_buffer` overload (reader.cc:539-591). -/
def set_buffer_var (s : SetBufferState) (attrName : String)
    (bufferOff bufferOffSize bufferVal bufferValSize : Option Nat) :
    Status × SetBufferState :=
  match bufferOff, bufferOffSize, bufferVal, bufferValSize with
  | some bo, some bos, some bv, some bvs =>
    match s.schema with
    | none => (.error "Cannot set buffer; Array schema not set", s)
    | some sc =>
      if attrName ≠ coordsName ∧ sc.attributeOf attrName = none then
        (.error "Cannot set buffer; Invalid attribute", s)
      else if !(attrName ≠ coordsName && sc.var_size attrName) then
        (.error "Cannot set buffer; Input attribute is fixed-sized", s)
      else if s.initialized && !s.attrExists attrName then
        (.error "Cannot set buffer for new attribute after initialization", s)
      else
        (.ok,
         { s with
            attributes := if s.attrExists attrName then s.attributes
                          else s.attributes ++ [attrName],
            attrBuffers := s.store attrName (.varSized bo bos bv bvs) })
  | _, _, _, _ => (.error "Cannot set buffer; Buffer or buffer size is null", s)

/-- Claim C10, confirmed: once `read_state_.initialized_` is set, both
`set_buffer` overloads return an error for any attribute without an
existing buffer (leaving the state untouched), and succeed for attributes
whose buffer was set before initialization — replacing that attribute's
buffer record and leaving the key set and the `attributes_` vector
unchanged — provided the call itself is well-formed (non-null pointers
and an overload matching the attribute's fixed/var kind); hence the set
of queried attributes is frozen at initialization time. -/
theorem set_buffer_frozen_after_init (s : SetBufferState) (attrName : String)
    (b bs bo bos bv bvs : Nat) (sc : SchemaModel)
    (hinit : s.initialized = true) (hschema : s.schema = some sc) :
    (s.attrExists attrName = false →
      (set_buffer s attrName (some b) (some bs)).1.isOk = false ∧
      (set_buffer s attrName (some b) (some bs)).2 = s ∧
      (set_buffer_var s attrName (some bo) (some bos) (some bv) (some bvs)).1.isOk =
        false ∧
      (set_buffer_var s attrName (some bo) (some bos) (some bv) (some bvs)).2 = s) ∧
    (s.attrExists attrName = true →
      ¬ (attrName ≠ coordsName ∧ sc.attributeOf attrName = none) →
      ((attrName ≠ coordsName && sc.var_size attrName) = false →
        set_buffer s attrName (some b) (some bs) =
          (.ok, { s with attrBuffers := s.store attrName (.fixed b bs) })) ∧
      ((attrName ≠ coordsName && sc.var_size attrName) = true →
        set_buffer_var s attrName (some bo) (some bos) (some bv) (some bvs) =
          (.ok, { s with
            attrBuffers := s.store attrName (.varSized bo bos bv bvs) }))) := by
  constructor
  · intro hex
    unfold set_buffer set_buffer_var
    rw [hschema]
    simp only [hinit, hex, Bool.not_false, Bool.and_true, Bool.true_and, reduceIte]
    refine ⟨?_, ?_, ?_, ?_⟩ <;> (split <;> first | rfl | (split <;> rfl))
  · intro hex hbad
    constructor
    · intro hvs
      unfold set_buffer
      rw [hschema]
      dsimp only
      rw [if_neg hbad]
      simp only [hvs, Bool.false_eq_true, reduceIte, hinit, hex, Bool.not_true,
        Bool.and_false]
    · intro hvs
      unfold set_buffer_var
      rw [hschema]
      dsimp only
      rw [if_neg hbad]
      simp only [hvs, Bool.not_true, Bool.false_eq_true, reduceIte, hinit, hex,
        Bool.and_false]

/-- Witness for C10: a reader initialized with a buffer for fixed
attribute "a" over a schema with attributes "a" (fixed) and "b"
(var-sized). -/
theorem set_buffer_frozen_after_init_witness :
    ((SetBufferState.mk (some ⟨[("a", false), ("b", true)]⟩) true
        [("a", .fixed 1 2)] ["a"]).attrExists "b" = false →
      (set_buffer (SetBufferState.mk (some ⟨[("a", false), ("b", true)]⟩) true
        [("a", .fixed 1 2)] ["a"]) "b" (some 7) (some 8)).1.isOk = false ∧
      (set_buffer (SetBufferState.mk (some ⟨[("a", false), ("b", true)]⟩) true
        [("a", .fixed 1 2)] ["a"]) "b" (some 7) (some 8)).2 =
        SetBufferState.mk (some ⟨[("a", false), ("b", true)]⟩) true
          [("a", .fixed 1 2)] ["a"] ∧
      (set_buffer_var (SetBufferState.mk (some ⟨[("a", false), ("b", true)]⟩) true
        [("a", .fixed 1 2)] ["a"]) "b" (some 7) (some 8) (some 9)
        (some 10)).1.isOk = false ∧
      (set_buffer_var (SetBufferState.mk (some ⟨[("a", false), ("b", true)]⟩) true
        [("a", .fixed 1 2)] ["a"]) "b" (some 7) (some 8) (some 9)
        (some 10)).2 =
        SetBufferState.mk (some ⟨[("a", false), ("b", true)]⟩) true
          [("a", .fixed 1 2)] ["a"]) ∧
    ((SetBufferState.mk (some ⟨[("a", false), ("b", true)]⟩) true
        [("a", .fixed 1 2)] ["a"]).attrExists "b" = true →
      ¬ ("b" ≠ coordsName ∧
          SchemaModel.attributeOf ⟨[("a", false), ("b", true)]⟩ "b" = none) →
      (("b" ≠ coordsName &&
          SchemaModel.var_size ⟨[("a", false), ("b", true)]⟩ "b") = false →
        set_buffer (SetBufferState.mk (some ⟨[("a", false), ("b", true)]⟩) true
          [("a", .fixed 1 2)] ["a"]) "b" (some 7) (some 8) =
          (.ok, { SetBufferState.mk (some ⟨[("a", false), ("b", true)]⟩) true
            [("a", .fixed 1 2)] ["a"] with
            attrBuffers := (SetBufferState.mk (some ⟨[("a", false), ("b", true)]⟩)
              true [("a", .fixed 1 2)] ["a"]).store "b" (.fixed 7 8) })) ∧
      (("b" ≠ coordsName &&
          SchemaModel.var_size ⟨[("a", false), ("b", true)]⟩ "b") = true →
        set_buffer_var (SetBufferState.mk (some ⟨[("a", false), ("b", true)]⟩) true
          [("a", .fixed 1 2)] ["a"]) "b" (some 7) (some 8) (some 9) (some 10) =
          (.ok, { SetBufferState.mk (some ⟨[("a", false), ("b", true)]⟩) true
            [("a", .fixed 1 2)] ["a"] with
            attrBuffers := (SetBufferState.mk (some ⟨[("a", false), ("b", true)]⟩)
              true [("a", .fixed 1 2)] ["a"]).store "b"
              (.varSized 7 8 9 10) }))) :=
  set_buffer_frozen_after_init
    (SetBufferState.mk (some ⟨[("a", false), ("b", true)]⟩) true
      [("a", .fixed 1 2)] ["a"])
    "b" 7 8 7 8 9 10 ⟨[("a", false), ("b", true)]⟩ rfl rfl

end TileDB
